import Mathlib

/-!
Verification development for the bot-destroyer expiry-redaction scheduler.

This file shallowly embeds the code of src/bot_destroyer/destroy_loop.py,
src/bot_destroyer/bot_commands.py and the relevant parts of
src/bot_destroyer/storage.py.  Remote protocol calls (room_messages,
room_context, redact, send_text_to_room) are modelled as oracle functions
carried by a Client record; the while-loops of the source take explicit
fuel and report fuel exhaustion through a distinguished error value, so
that running out of fuel is never mistaken for a normal result.
Pagination tokens are opaque strings in the source and are only compared
for equality or for being None; the embedding is generic over a token
type Tok with decidable equality, with Python None modelled by Option.
Timestamps are millisecond integers; the float arithmetic of
get_time_to_expiry_in_min is modelled exactly over the rationals.
-/

namespace BotDestroyer

/-- Metadata carried by the redacted_because field of an event source
(type and sender of the redaction event). -/
structure RedactedBecause where
  rb_type : String
  rb_sender : String
deriving DecidableEq, Repr

/-- Protocol event as consumed by destroy_loop.py: identifier, server
timestamp in milliseconds, the declared type string (source.get of the
type key, defaulting to the string default), the sender, and the
optional redacted_because metadata. -/
structure Event where
  event_id : String
  server_timestamp : Int
  source_type : String
  sender : String
  redacted_because : Option RedactedBecause
deriving DecidableEq, Repr

/-- The persist_event_types list of destroy_loop.py lines 14-28. -/
def persist_event_types : List String :=
  ["m.room.server_acl", "m.room.encryption", "m.room.name", "m.room.avatar",
   "m.room.topic", "m.room.guest_access", "m.room.history_visibility",
   "m.room.join_rules", "m.room.power_levels", "m.room.create",
   "m.room.member", "m.room.redaction", "default"]

/-- Room.event_redaction: the event is itself a redaction sent by the bot
account (destroy_loop.py lines 115-118). -/
def event_redaction (user_id : String) (ev : Event) : Bool :=
  ev.source_type == "m.room.redaction" && ev.sender == user_id

/-- Room.event_redacted: the redacted_because metadata declares a
redaction (destroy_loop.py lines 120-123); a missing field reads as the
string default, which differs from the redaction type. -/
def event_redacted (ev : Event) : Bool :=
  ((ev.redacted_because.map RedactedBecause.rb_type).getD "default") == "m.room.redaction"

/-- Room.event_redacted_by_bot: redacted, and the redaction's sender is
the bot account (destroy_loop.py lines 125-128). -/
def event_redacted_by_bot (user_id : String) (ev : Event) : Bool :=
  event_redacted ev &&
    (((ev.redacted_because.map RedactedBecause.rb_sender).getD "default") == user_id)

/-- Room.get_time_to_expiry_in_min (destroy_loop.py lines 92-96): the
stored delete_after value minus the elapsed time in minutes between the
event timestamp and now, computed exactly over the rationals (the source
uses float seconds divided by 60). -/
def get_time_to_expiry_in_min (delete_after_m : Int) (now_ms ts_ms : Int) : ℚ :=
  (delete_after_m : ℚ) - (((now_ms : ℚ) - (ts_ms : ℚ)) / 1000) / 60

/-- Room.event_expired (destroy_loop.py lines 87-90): time to expiry
strictly below zero. -/
def event_expired (delete_after_m : Int) (now_ms : Int) (ev : Event) : Bool :=
  decide (get_time_to_expiry_in_min delete_after_m now_ms ev.server_timestamp < 0)

/-- Response of client.room_messages: start and end pagination tokens
(either may be absent, as in nio) and the page of events. -/
structure RoomMessagesResponse (Tok : Type) where
  start : Option Tok
  stop : Option Tok
  chunk : List Event
deriving DecidableEq, Repr

/-- Response of client.room_context: pagination tokens and the events
after the anchor event (the only fields the source reads). -/
structure RoomContextResponse (Tok : Type) where
  start : Option Tok
  stop : Option Tok
  events_after : List Event
deriving DecidableEq, Repr

/-- Error taxonomy of the embedded loops.  http models raising
Exception(status_code) on a RoomMessagesError, RoomContextError or
RoomRedactError; consistency models the explicit raise on a non-expired
message found during backfill; typeError models the Python TypeError
from arithmetic on a missing delete_after or timestamp; nameError models
the unbound local variable in main_loop's bare except handler; fuelOut
reports exhaustion of the explicit loop fuel. -/
inductive Err where
  | http (status_code : Int)
  | consistency
  | typeError
  | nameError
  | fuelOut
deriving DecidableEq, Repr

/-- Oracle bundle standing for the AsyncClient plus the fixed current
time: the bot account id, datetime.now in milliseconds, the initial
from-token used for the empty-string token literal of the source, and
the three remote operations, each able to fail with a status code. -/
structure Client (Tok : Type) where
  user_id : String
  now_ms : Int
  empty_token : Tok
  messages_back : Tok → Except Int (RoomMessagesResponse Tok)
  messages_front : Tok → Except Int (RoomMessagesResponse Tok)
  context_at : Option String → Except Int (RoomContextResponse Tok)
  redact : String → Except Int Unit

/-- In-memory fields of a Room instance (destroy_loop.py lines 41-73
after parsing the stored row). -/
structure RoomState (Tok : Type) where
  room_id : String
  last_event_id : Option String
  timestamp : Option Int
  batch_token_start : Option Tok
  batch_token_end : Option Tok
  deletion_turned_on : Bool
  delete_after_m : Option Int
  accept_requested : Bool
deriving DecidableEq, Repr

/-- Persisted row of the last_room_events table for one room
(storage.py): cursor quad, policy delay in milliseconds, and the
deletion flag stored as the strings 1 or 0. -/
structure StoredRow (Tok : Type) where
  event_id : Option String
  timestamp : Option Int
  delete_after : Option Int
  deletion_turned_on : Option String
  batch_token_start : Option Tok
  batch_token_end : Option Tok
deriving DecidableEq, Repr

/-- A room's in-memory state paired with its stored row. -/
structure Sys (Tok : Type) where
  room : RoomState Tok
  row : StoredRow Tok
deriving DecidableEq, Repr

/-- Room.set_event (destroy_loop.py lines 75-81): update the four cursor
fields in memory and persist them through Storage.set_room_event. -/
def set_event {Tok : Type} (s : Sys Tok) (event_id : Option String)
    (timestamp : Option Int) (bts bte : Option Tok) : Sys Tok :=
  { room := { s.room with
                last_event_id := event_id
                timestamp := timestamp
                batch_token_start := bts
                batch_token_end := bte },
    row := { s.row with
               event_id := event_id
               timestamp := timestamp
               batch_token_start := bts
               batch_token_end := bte } }

/-- Room.set_delete_after (destroy_loop.py lines 83-85): update the
in-memory delay and persist it through Storage.set_delete_after. -/
def set_delete_after {Tok : Type} (s : Sys Tok) (delete_after_m : Int) : Sys Tok :=
  { room := { s.room with delete_after_m := some delete_after_m },
    row := { s.row with delete_after := some delete_after_m } }

/-- Parsing of the stored deletion_turned_on column in Room init
(destroy_loop.py lines 66-67): when present it is compared with the
string 1, when absent it stays None which is falsy. -/
def parse_flag : Option String → Bool
  | none => false
  | some v => v == "1"

/-- Room init (destroy_loop.py lines 41-73): build the in-memory state
from the stored row of a room. -/
def room_from_row {Tok : Type} (room_id : String) (r : StoredRow Tok) : RoomState Tok :=
  { room_id := room_id, last_event_id := r.event_id, timestamp := r.timestamp,
    batch_token_start := r.batch_token_start, batch_token_end := r.batch_token_end,
    deletion_turned_on := parse_flag r.deletion_turned_on,
    delete_after_m := r.delete_after, accept_requested := false }

/-- Destroyer.room_tasks, modelled as an association list from room id to
the cancellation outcome the task handle would report; the source keys a
dict by room id and stores asyncio tasks. -/
abbrev TaskMap : Type := List (String × Bool)

/-- Destroyer.start_room_loop (destroy_loop.py lines 340-350): refuse if
a task is registered for the room, otherwise register a fresh task
(whose eventual cancel outcome is the supplied boolean) and report
success. -/
def start_room_loop (tasks : TaskMap) (room_id : String) (cancel_outcome : Bool) :
    Bool × TaskMap :=
  if room_id ∈ tasks.map Prod.fst then (false, tasks)
  else (true, (room_id, cancel_outcome) :: tasks)

/-- Destroyer.stop_room_loop (destroy_loop.py lines 352-361): refuse if
no task is registered, otherwise pop the entry and return the task's
cancel outcome. -/
def stop_room_loop (tasks : TaskMap) (room_id : String) : Bool × TaskMap :=
  match tasks.find? (fun p => p.fst == room_id) with
  | none => (false, tasks)
  | some p => (p.snd, tasks.filter (fun q => !(q.fst == room_id)))

/-- Destroyer init (destroy_loop.py lines 326-338): the room ids whose
stored deletion flag parses to true are the ones given a task at boot. -/
def destroyer_started_rooms {Tok : Type} (rows : List (String × StoredRow Tok)) :
    List String :=
  (rows.filter (fun p => parse_flag p.snd.deletion_turned_on)).map Prod.fst

/-- The ASCII fragment of Python str.isnumeric used by _set_delay: a
non-empty all-digit string (the command inputs of interest are ASCII). -/
def str_isnumeric (s : String) : Bool :=
  !(s == "") && s.toList.all Char.isDigit

/-- Python int applied to a string of decimal digits (the only shape
_set_delay passes it, after the isnumeric guard). -/
def str_toNat (s : String) : Nat :=
  s.toList.foldl (fun acc ch => acc * 10 + (ch.toNat - 48)) 0

/-- Command._set_delay (bot_commands.py lines 137-150): reject
non-numeric input, reject a non-positive minute count, otherwise store
the delay converted to milliseconds; returns the updated state and the
chat messages sent. -/
def cmd_set_delay {Tok : Type} (s : Sys Tok) (delay : String) : Sys Tok × List String :=
  if !(str_isnumeric delay) then
    (s, ["Please enter a numeric delay value in minutes"])
  else
    let delay_minutes : Nat := str_toNat delay
    if delay_minutes ≤ 0 then (s, ["Delay must be positive"])
    else (set_delete_after s ((delay_minutes : Int) * 60 * 1000), [])

/-- Command._confirm (bot_commands.py lines 105-117): without a pending
request, only a message; otherwise flip the in-memory flag, clear the
request and ask the registry to start the task.  The stored row is not
touched. -/
def cmd_confirm {Tok : Type} (s : Sys Tok) (tasks : TaskMap) (cancel_outcome : Bool) :
    Sys Tok × TaskMap × List String :=
  if !(s.room.accept_requested) then (s, tasks, ["Nothing to confirm."])
  else
    let s2 : Sys Tok :=
      { s with room := { s.room with deletion_turned_on := true, accept_requested := false } }
    let r := start_room_loop tasks s.room.room_id cancel_outcome
    if r.fst then (s2, r.snd, ["Deleting old messages."])
    else (s2, r.snd, ["Failed to start deletion process."])

/-- Command._disable (bot_commands.py lines 70-82): with deletion off,
only a message; otherwise clear the in-memory flag and ask the registry
to stop the task.  The stored row is not touched. -/
def cmd_disable {Tok : Type} (s : Sys Tok) (tasks : TaskMap) :
    Sys Tok × TaskMap × List String :=
  if !(s.room.deletion_turned_on) then (s, tasks, ["Deletion already disabled."])
  else
    let s2 : Sys Tok :=
      { s with room := { s.room with deletion_turned_on := false } }
    let r := stop_room_loop tasks s.room.room_id
    if r.fst then (s2, r.snd, ["Deletion disabled."])
    else (s2, r.snd, ["Failed to disable room deletion."])

/-- Room.enable_room_loop (destroy_loop.py lines 98-103): set the
in-memory flag, clear the pending request, persist the flag as the
string 1 and start the registry task. -/
def enable_room_loop {Tok : Type} (s : Sys Tok) (tasks : TaskMap) (cancel_outcome : Bool) :
    Bool × Sys Tok × TaskMap :=
  let s2 : Sys Tok :=
    { room := { s.room with deletion_turned_on := true, accept_requested := false },
      row := { s.row with deletion_turned_on := some "1" } }
  let r := start_room_loop tasks s.room.room_id cancel_outcome
  (r.fst, s2, r.snd)

/-- Room.disable_room_loop (destroy_loop.py lines 105-110): clear the
in-memory flag, persist the flag as the string 0 and stop the registry
task. -/
def disable_room_loop {Tok : Type} (s : Sys Tok) (tasks : TaskMap) :
    Bool × Sys Tok × TaskMap :=
  let s2 : Sys Tok :=
    { room := { s.room with deletion_turned_on := false },
      row := { s.row with deletion_turned_on := some "0" } }
  let r := stop_room_loop tasks s.room.room_id
  (r.fst, s2, r.snd)

/-- Inner for-loop of phase one of Room.delete_previous_events
(destroy_loop.py lines 141-148): scan a page for an event already
redacted by the bot. -/
def phase1_scan (user_id : String) : List Event → Bool
  | [] => false
  | ev :: rest =>
    if event_redacted_by_bot user_id ev then true else phase1_scan user_id rest

/-- Backward-scanning while-loop of phase one of
Room.delete_previous_events (destroy_loop.py lines 136-148), with
explicit fuel.  The loop runs while resp.start differs from resp.end,
the exit flag is unset and resp.end is present; it returns the start and
end tokens of the response current when the loop stopped, which is all
the subsequent code reads (delete_from_block_token always coincides with
that final end token). -/
def phase1_loop {Tok : Type} [DecidableEq Tok] (c : Client Tok) :
    Nat → Option Tok → Option Tok → Except Err (Option Tok × Option Tok)
  | 0, _, _ => Except.error Err.fuelOut
  | Nat.succ fuel, start?, stop? =>
    match stop? with
    | none => Except.ok (start?, none)
    | some t =>
      if start? = some t then Except.ok (start?, some t)
      else
        match c.messages_back t with
        | Except.error code => Except.error (Err.http code)
        | Except.ok resp =>
          if phase1_scan c.user_id resp.chunk then Except.ok (resp.start, resp.stop)
          else phase1_loop c fuel resp.start resp.stop

/-- Inner for-loop of phase two of Room.delete_previous_events
(destroy_loop.py lines 162-185): stop at the cursor event, skip events
already redacted, redaction events and persist types, redact an expired
event (propagating a redact failure), and raise a consistency error on a
non-expired event.  The boolean result records whether the cursor event
was reached; the list records the events for which a redact call was
issued, in order. -/
def phase2_chunk {Tok : Type} (c : Client Tok) (d? : Option Int) (leid : Option String) :
    List Event → (Except Err Bool) × List Event
  | [] => (Except.ok false, [])
  | ev :: rest =>
    if some ev.event_id = leid then (Except.ok true, [])
    else if event_redacted ev then phase2_chunk c d? leid rest
    else if event_redaction c.user_id ev then phase2_chunk c d? leid rest
    else if ev.source_type ∈ persist_event_types then phase2_chunk c d? leid rest
    else
      match d? with
      | none => (Except.error Err.typeError, [])
      | some d =>
        if event_expired d c.now_ms ev then
          match c.redact ev.event_id with
          | Except.error code => (Except.error (Err.http code), [ev])
          | Except.ok _ =>
            let r := phase2_chunk c d? leid rest
            (r.fst, ev :: r.snd)
        else (Except.error Err.consistency, [])

/-- Forward-scanning while-loop of phase two of
Room.delete_previous_events (destroy_loop.py lines 156-185), with
explicit fuel; accumulates the redacted events of each page. -/
def phase2_loop {Tok : Type} [DecidableEq Tok] (c : Client Tok) (d? : Option Int)
    (leid : Option String) :
    Nat → Option Tok → Option Tok → (Except Err Unit) × List Event
  | 0, _, _ => (Except.error Err.fuelOut, [])
  | Nat.succ fuel, start?, stop? =>
    match stop? with
    | none => (Except.ok (), [])
    | some t =>
      if start? = some t then (Except.ok (), [])
      else
        match c.messages_front t with
        | Except.error code => (Except.error (Err.http code), [])
        | Except.ok resp =>
          match phase2_chunk c d? leid resp.chunk with
          | (Except.error e, tr) => (Except.error e, tr)
          | (Except.ok true, tr) => (Except.ok (), tr)
          | (Except.ok false, tr) =>
            let r := phase2_loop c d? leid fuel resp.start resp.stop
            (r.fst, tr ++ r.snd)

/-- Room.delete_previous_events (destroy_loop.py lines 130-185): phase
one scans backward from batch_token_end for the first event already
redacted by the bot (the initial response has start None and end
batch_token_end); phase two scans forward from where phase one stopped,
redacting expired events until the cursor event is reached.  Returns the
outcome and the list of events for which redact calls were issued. -/
def delete_previous_events {Tok : Type} [DecidableEq Tok] (c : Client Tok)
    (st : RoomState Tok) (fuel : Nat) : (Except Err Unit) × List Event :=
  match phase1_loop c fuel none st.batch_token_end with
  | Except.error e => (Except.error e, [])
  | Except.ok (pstart, pstop) =>
    phase2_loop c st.delete_after_m st.last_event_id fuel pstart pstop

/-- Outcome of the page scan inside Room.fetch_first_event_id: a
candidate expired event was found, the scan must halt with no candidate
(an event already redacted by the bot was seen), or the page is
exhausted. -/
inductive FFScan where
  | found (ev : Event)
  | halt
  | next
deriving DecidableEq, Repr

/-- Inner for-loop of Room.fetch_first_event_id (destroy_loop.py lines
202-218): an event redacted by the bot stops the scan with no candidate;
the bot's own redaction events are skipped; an expired event whose type
is not exempt becomes the candidate. -/
def ff_scan (user_id : String) (d : Int) (now_ms : Int) : List Event → FFScan
  | [] => FFScan.next
  | ev :: rest =>
    if event_redacted_by_bot user_id ev then FFScan.halt
    else if event_redaction user_id ev then ff_scan user_id d now_ms rest
    else
      if ev.source_type ∈ persist_event_types then ff_scan user_id d now_ms rest
      else
        if event_expired d now_ms ev then FFScan.found ev
        else ff_scan user_id d now_ms rest

/-- Backward-scanning while-loop of Room.fetch_first_event_id
(destroy_loop.py lines 197-218), with explicit fuel.  On success it
returns the candidate together with the recorded pagination bracket:
batch_token_start takes resp.end and batch_token_end takes resp.start of
the page on which the candidate was found. -/
def ff_loop {Tok : Type} [DecidableEq Tok] (c : Client Tok) (d : Int) :
    Nat → Option Tok → Option Tok →
    Except Err (Option (Event × Option Tok × Option Tok))
  | 0, _, _ => Except.error Err.fuelOut
  | Nat.succ fuel, start?, stop? =>
    match stop? with
    | none => Except.ok none
    | some t =>
      if start? = some t then Except.ok none
      else
        match c.messages_back t with
        | Except.error code => Except.error (Err.http code)
        | Except.ok resp =>
          match ff_scan c.user_id d c.now_ms resp.chunk with
          | FFScan.found ev => Except.ok (some (ev, resp.stop, resp.start))
          | FFScan.halt => Except.ok none
          | FFScan.next => ff_loop c d fuel resp.start resp.stop

/-- Room.fetch_first_event_id (destroy_loop.py lines 187-221): with no
configured delay (None or zero, both falsy) return None without touching
the cursor; otherwise scan backward from the newest page and persist
whatever candidate the scan produced (clearing the cursor when there is
none), returning the candidate id. -/
def fetch_first_event_id {Tok : Type} [DecidableEq Tok] (c : Client Tok)
    (s : Sys Tok) (fuel : Nat) : Except Err (Option String × Sys Tok) :=
  match s.room.delete_after_m with
  | none => Except.ok (none, s)
  | some d =>
    if d = 0 then Except.ok (none, s)
    else
      match ff_loop c d fuel none (some c.empty_token) with
      | Except.error e => Except.error e
      | Except.ok none => Except.ok (none, set_event s none none none none)
      | Except.ok (some (ev, bts, bte)) =>
        Except.ok (some ev.event_id,
          set_event s (some ev.event_id) (some ev.server_timestamp) bts bte)

/-- Inner for-loop of Room.set_next_event (destroy_loop.py lines
241-250): advance the anchor id over every event seen, and take the
first event whose type is not exempt as the new cursor candidate.
Returns the advanced anchor id and the candidate, if any. -/
def snx_scan : List Event → Option String → Option String × Option Event
  | [], leid => (leid, none)
  | ev :: rest, _ =>
    if ev.source_type ∈ persist_event_types then snx_scan rest (some ev.event_id)
    else (some ev.event_id, some ev)

/-- While-loop of Room.set_next_event (destroy_loop.py lines 230-250),
with explicit fuel: repeatedly look up the context after the anchor
event; an empty events_after list stops the walk with no candidate; a
found candidate is returned with resp.start as batch_token_start and
resp.end as batch_token_end. -/
def snx_loop {Tok : Type} [DecidableEq Tok] (c : Client Tok) :
    Nat → Option Tok → Option Tok → Option String →
    Except Err (Option (Event × Option Tok × Option Tok))
  | 0, _, _, _ => Except.error Err.fuelOut
  | Nat.succ fuel, start?, stop?, leid =>
    match stop? with
    | none => Except.ok none
    | some t =>
      if start? = some t then Except.ok none
      else
        match c.context_at leid with
        | Except.error code => Except.error (Err.http code)
        | Except.ok resp =>
          if resp.events_after.length = 0 then Except.ok none
          else
            match snx_scan resp.events_after leid with
            | (_, some ev) => Except.ok (some (ev, resp.start, resp.stop))
            | (leid2, none) => snx_loop c fuel resp.start resp.stop leid2

/-- Room.set_next_event (destroy_loop.py lines 223-252): walk forward
from the current cursor through context lookups and persist the next
non-exempt event as the cursor, or clear the cursor when no further
event exists. -/
def set_next_event {Tok : Type} [DecidableEq Tok] (c : Client Tok) (s : Sys Tok)
    (fuel : Nat) : Except Err (Sys Tok) :=
  match snx_loop c fuel none (some c.empty_token) s.room.last_event_id with
  | Except.error e => Except.error e
  | Except.ok none => Except.ok (set_event s none none none none)
  | Except.ok (some (ev, bts, bte)) =>
    Except.ok (set_event s (some ev.event_id) (some ev.server_timestamp) bts bte)

/-- Python truthiness of the last_event_id attribute as tested by the
steady-state branch of main_loop: absent or empty string is falsy. -/
def lid_truthy : Option String → Bool
  | none => false
  | some s => !(s == "")

/-- Diagnostic messages main_loop posts into the room, one constructor
per literal send_text_to_room site (destroy_loop.py lines 263, 276, 281,
290, 297).  The constructor for line 290 never appears in any trace: its
handler references an unbound variable (see Err.nameError). -/
inductive Msg where
  | failed_delete_before_last (e : Err)
  | failed_redact_last (status_code : Int)
  | failed_find_next (e : Err)
  | failed_fetch_after_none (e : Err)
  | failed_delete_before_next (e : Err)
deriving DecidableEq, Repr

/-- Observable actions of main_loop: a redact call issued for an event
found during backfill, a redact call issued by id for the cursor, a
chat message posted into the room, and an invocation of
fetch_first_event_id. -/
inductive TraceItem where
  | redactEv (ev : Event)
  | redactId (id : String)
  | message (m : Msg)
  | fetchFirstCall
deriving DecidableEq, Repr

/-- How one run of main_loop ended: the while condition went false, the
coroutine returned after posting a diagnostic, an exception escaped the
coroutine uncaught (no diagnostic posted), or the fuel ran out. -/
inductive LoopExit where
  | finished
  | returned
  | crashed (e : Err)
  | fuelOut
deriving DecidableEq, Repr

/-- Result of running main_loop: how it ended, the final state, and the
trace of observable actions in order. -/
structure LoopOut (Tok : Type) where
  exit : LoopExit
  sys : Sys Tok
  trace : List TraceItem
deriving DecidableEq, Repr

/-- The while-loop of Room.main_loop (destroy_loop.py lines 266-298),
with explicit iteration fuel (sub-operations receive subfuel).  With a
truthy cursor: compute the sleep time (a missing delay or timestamp
raises an uncaught TypeError), sleep, redact the cursor id (a redact
error posts a diagnostic and returns), then set_next_event (an error
posts a diagnostic and returns).  With no cursor: sleep, call
fetch_first_event_id; if it raises, the bare except handler itself
raises a NameError on the unbound variable e, so the coroutine crashes
with no diagnostic; if it returns a candidate, run
delete_previous_events (an error posts a diagnostic and returns). -/
def main_while {Tok : Type} [DecidableEq Tok] (c : Client Tok) :
    Nat → Nat → Sys Tok → LoopOut Tok
  | 0, _, s => ⟨LoopExit.fuelOut, s, []⟩
  | Nat.succ fuel, subfuel, s =>
    if !(s.room.deletion_turned_on) then ⟨LoopExit.finished, s, []⟩
    else if lid_truthy s.room.last_event_id then
      match s.room.delete_after_m, s.room.timestamp with
      | some _, some _ =>
        let lid := s.room.last_event_id.getD ""
        match c.redact lid with
        | Except.error code =>
          ⟨LoopExit.returned, s, [TraceItem.redactId lid,
            TraceItem.message (Msg.failed_redact_last code)]⟩
        | Except.ok _ =>
          match set_next_event c s subfuel with
          | Except.error e =>
            ⟨LoopExit.returned, s, [TraceItem.redactId lid,
              TraceItem.message (Msg.failed_find_next e)]⟩
          | Except.ok s2 =>
            let r := main_while c fuel subfuel s2
            ⟨r.exit, r.sys, TraceItem.redactId lid :: r.trace⟩
      | _, _ => ⟨LoopExit.crashed Err.typeError, s, []⟩
    else
      match fetch_first_event_id c s subfuel with
      | Except.error _ =>
        ⟨LoopExit.crashed Err.nameError, s, [TraceItem.fetchFirstCall]⟩
      | Except.ok (none, s2) =>
        let r := main_while c fuel subfuel s2
        ⟨r.exit, r.sys, TraceItem.fetchFirstCall :: r.trace⟩
      | Except.ok (some _, s2) =>
        match delete_previous_events c s2.room subfuel with
        | (Except.error e, tr) =>
          ⟨LoopExit.returned, s2,
            TraceItem.fetchFirstCall :: (tr.map TraceItem.redactEv ++
              [TraceItem.message (Msg.failed_delete_before_next e)])⟩
        | (Except.ok _, tr) =>
          let r := main_while c fuel subfuel s2
          ⟨r.exit, r.sys,
            TraceItem.fetchFirstCall :: (tr.map TraceItem.redactEv ++ r.trace)⟩

/-- Room.main_loop (destroy_loop.py lines 254-298): when a cursor is
persisted, first run delete_previous_events (an error posts a diagnostic
and returns), then enter the steady-state while-loop. -/
def main_loop {Tok : Type} [DecidableEq Tok] (c : Client Tok) (s : Sys Tok)
    (fuel subfuel : Nat) : LoopOut Tok :=
  match s.room.last_event_id with
  | some _ =>
    match delete_previous_events c s.room subfuel with
    | (Except.error e, tr) =>
      ⟨LoopExit.returned, s,
        tr.map TraceItem.redactEv ++ [TraceItem.message (Msg.failed_delete_before_last e)]⟩
    | (Except.ok _, tr) =>
      let r := main_while c fuel subfuel s
      ⟨r.exit, r.sys, tr.map TraceItem.redactEv ++ r.trace⟩
  | none => main_while c fuel subfuel s

/-- An event served by some backward page of the client. -/
def ServedBack {Tok : Type} (c : Client Tok) (ev : Event) : Prop :=
  ∃ t resp, c.messages_back t = Except.ok resp ∧ ev ∈ resp.chunk

/-- An event served by some forward page of the client. -/
def ServedFront {Tok : Type} (c : Client Tok) (ev : Event) : Prop :=
  ∃ t resp, c.messages_front t = Except.ok resp ∧ ev ∈ resp.chunk

/-- An event served by some context lookup of the client. -/
def ServedCtx {Tok : Type} (c : Client Tok) (ev : Event) : Prop :=
  ∃ q resp, c.context_at q = Except.ok resp ∧ ev ∈ resp.events_after

/-- An event the client can serve through any of its read operations. -/
def Served {Tok : Type} (c : Client Tok) (ev : Event) : Prop :=
  ServedBack c ev ∨ ServedFront c ev ∨ ServedCtx c ev

/-- Event identifiers determine events among everything the client
serves (a sane transport never serves two distinct events under one
id). -/
def ServedInj {Tok : Type} (c : Client Tok) : Prop :=
  ∀ a b, Served c a → Served c b → a.event_id = b.event_id → a = b

/-- The cursor, when present, does not name any exempt event the client
serves. -/
def GoodCursor {Tok : Type} (c : Client Tok) (lid : Option String) : Prop :=
  ∀ id, lid = some id →
    ∀ e, Served c e → e.source_type ∈ persist_event_types → e.event_id ≠ id

/-- An event the backfill scan acts on: not already redacted, not one of
the bot's redaction events, type not exempt. -/
def qualifying (user_id : String) (ev : Event) : Prop :=
  event_redacted ev = false ∧ event_redaction user_id ev = false ∧
    ev.source_type ∉ persist_event_types

/-- Concrete linear-history transport used for the idempotence claim: a
backward page at token t serves the single event at position t of the
newest-first history (page size one; the token is the number of events
already consumed from the newest end). -/
def hist_back (H : List Event) (t : Nat) : RoomMessagesResponse Nat :=
  ⟨some t, some (min (t + 1) H.length), (H.drop t).take 1⟩

/-- Concrete linear-history transport, forward direction: the page at
token t serves the single event at position t - 1 (the next newer one),
moving the token toward zero. -/
def hist_front (H : List Event) (t : Nat) : RoomMessagesResponse Nat :=
  ⟨some t, some (t - 1), ((H.take t).drop (t - 1)).reverse⟩

/-- Client over a concrete newest-first history with page size one;
redact calls succeed and context lookups are unused. -/
def hist_client (uid : String) (now_ms : Int) (H : List Event) : Client Nat :=
  { user_id := uid, now_ms := now_ms, empty_token := 0,
    messages_back := fun t => Except.ok (hist_back H t),
    messages_front := fun t => Except.ok (hist_front H t),
    context_at := fun _ => Except.error 0,
    redact := fun _ => Except.ok () }

/-- Whether the event at a position of a newest-first history is
already redacted by the bot. -/
def markedAt (uid : String) (H : List Event) (i : Nat) : Bool :=
  match H.get? i with
  | some ev => event_redacted_by_bot uid ev
  | none => false

/-- An event the forward backfill scan passes over without a redact
call: it is not the cursor event and it is already redacted, a
redaction event, or of an exempt type. -/
def skipEv (uid : String) (leid : Option String) (ev : Event) : Prop :=
  some ev.event_id ≠ leid ∧
    (event_redacted ev = true ∨ event_redaction uid ev = true ∨
      ev.source_type ∈ persist_event_types)

/-- Mark one event as redacted by the bot when its id is in the given
list, as a successful redact call leaves it on the server. -/
def mark_event (uid : String) (ids : List String) (ev : Event) : Event :=
  if ev.event_id ∈ ids then
    { ev with redacted_because := some ⟨"m.room.redaction", uid⟩ }
  else ev

/-- Apply the bot's redactions of the given ids to a history. -/
def mark_ids (uid : String) (ids : List String) (H : List Event) : List Event :=
  H.map (mark_event uid ids)

/-- A plain message event, used in concrete runs. -/
def msgEvent (id : String) (ts : Int) : Event :=
  ⟨id, ts, "m.room.message", "@alice:example.org", none⟩

/-- Base room state for concrete runs: fresh room, nothing configured. -/
def baseRoom (Tok : Type) : RoomState Tok :=
  ⟨"!room:example.org", none, none, none, none, false, none, false⟩

/-- Base stored row for concrete runs: all columns NULL. -/
def baseRow (Tok : Type) : StoredRow Tok :=
  ⟨none, none, none, none, none, none⟩

/-- Base combined state for concrete runs. -/
def baseSys (Tok : Type) : Sys Tok := ⟨baseRoom Tok, baseRow Tok⟩

/-- Transport whose history is one non-exempt, non-expired message:
the first backward page serves it, every other page is terminal. -/
def clientObs : Client String :=
  { user_id := "@bot:example.org", now_ms := 0, empty_token := "",
    messages_back := fun t =>
      if t == "" then Except.ok ⟨some "", some "t1", [msgEvent "$m1" 0]⟩
      else Except.ok ⟨some t, some t, []⟩,
    messages_front := fun t => Except.ok ⟨some t, some t, []⟩,
    context_at := fun _ => Except.ok ⟨none, none, []⟩,
    redact := fun _ => Except.ok () }

/-- Room with a configured five-minute-raw delay and no cursor. -/
def sysObs : Sys String :=
  { baseSys String with room := { baseRoom String with delete_after_m := some 5 } }

/-- Transport whose history is one expired non-exempt message. -/
def clientFound : Client String :=
  { user_id := "@bot:example.org", now_ms := 120000, empty_token := "",
    messages_back := fun t =>
      if t == "" then Except.ok ⟨some "", some "t1", [msgEvent "$m1" 0]⟩
      else Except.ok ⟨some t, some t, []⟩,
    messages_front := fun t => Except.ok ⟨some t, some t, []⟩,
    context_at := fun _ => Except.ok ⟨none, none, []⟩,
    redact := fun _ => Except.ok () }

/-- Room with delete_after one (raw), so a two-minute-old event is
expired. -/
def sysFound : Sys String :=
  { baseSys String with room := { baseRoom String with delete_after_m := some 1 } }

/-- Stored row of a room restarting with a persisted cursor. -/
def rowRestart : StoredRow String :=
  { event_id := some "$target", timestamp := some 0, delete_after := some 1,
    deletion_turned_on := some "1", batch_token_start := none,
    batch_token_end := none }

/-- Transport for the restart scenario: empty history, an empty context
after the cursor, and a redact that succeeds only for the cursor
event. -/
def clientRestart : Client String :=
  { user_id := "@bot:example.org", now_ms := 0, empty_token := "",
    messages_back := fun t => Except.ok ⟨some t, some t, []⟩,
    messages_front := fun t => Except.ok ⟨some t, some t, []⟩,
    context_at := fun _ => Except.ok ⟨some "cs", some "ce", []⟩,
    redact := fun id => if id == "$target" then Except.ok () else Except.error 403 }

/-- Transport that fails every remote call with status 500. -/
def clientDown : Client String :=
  { user_id := "@bot:example.org", now_ms := 0, empty_token := "",
    messages_back := fun _ => Except.error 500,
    messages_front := fun _ => Except.error 500,
    context_at := fun _ => Except.error 500,
    redact := fun _ => Except.error 500 }

/-- Room with deletion turned on, a configured delay and no cursor, as
left by enable and confirm. -/
def sysNoCursor : Sys String :=
  { baseSys String with
      room := { baseRoom String with
                  deletion_turned_on := true
                  delete_after_m := some 5 } }

/-- Transport whose whole visible history is one exempt membership
event. -/
def clientExempt : Client String :=
  { user_id := "@bot:example.org", now_ms := 0, empty_token := "",
    messages_back := fun t =>
      if t == "" then
        Except.ok ⟨some "", some "t1",
          [⟨"$state", 0, "m.room.member", "@alice:example.org", none⟩]⟩
      else Except.ok ⟨some t, some t, []⟩,
    messages_front := fun t => Except.ok ⟨some t, some t, []⟩,
    context_at := fun _ => Except.ok ⟨none, none, []⟩,
    redact := fun _ => Except.ok () }

/-- The exempt membership event served by clientExempt. -/
def evExempt : Event := ⟨"$state", 0, "m.room.member", "@alice:example.org", none⟩

/-- Concrete newest-first history for the idempotence scenario: the
cursor event, one expired qualifying event below it, and an old event
already redacted by the bot marking the boundary. -/
def evCursor : Event := msgEvent "$cur" 0

/-- Expired qualifying event older than the cursor. -/
def evOld : Event := msgEvent "$old" 0

/-- Boundary event already redacted by the bot in an earlier run. -/
def evBoundary : Event :=
  ⟨"$bound", 0, "m.room.message", "@alice:example.org",
    some ⟨"m.room.redaction", "@bot:example.org"⟩⟩

/-- Newest-first history used for the idempotence scenario. -/
def histIdem : List Event := [evCursor, evOld, evBoundary]

/-- Room state holding the persisted cursor for the idempotence
scenario: cursor at the newest event, with its pagination bracket. -/
def stIdem : RoomState Nat :=
  { room_id := "!room:example.org", last_event_id := some "$cur",
    timestamp := some 0, batch_token_start := some 1, batch_token_end := some 0,
    deletion_turned_on := true, delete_after_m := some 0,
    accept_requested := false }

/-- A qualifying event that has not yet expired, for the consistency
abort scenario. -/
def evFresh : Event := msgEvent "$fresh" 60000

/-- Transport whose forward page serves one expired message and whose
redact calls fail with status 403, for the redact-propagation
scenario. -/
def clientFail : Client String :=
  { user_id := "@bot:example.org", now_ms := 0, empty_token := "",
    messages_back := fun t => Except.ok ⟨some t, some t, []⟩,
    messages_front := fun _ => Except.ok ⟨some "a", some "b", [msgEvent "$x" 0]⟩,
    context_at := fun _ => Except.ok ⟨none, none, []⟩,
    redact := fun _ => Except.error 403 }

/-- Room state with a negative raw delay, under which every event is
expired immediately. -/
def stFail : RoomState String :=
  { baseRoom String with delete_after_m := some (-1), last_event_id := some "$cur" }

/-- commands_help.COMMAND_DELAY (commands_help.py lines 14-22). -/
def COMMAND_DELAY : String :=
  "Show/Set delay in minutes after which messages will be deleted in a room. Usage:\n\nShow delay:\n`!c delay`\n\nSet delay: \n`!c delay <delay in minutes>`\n"

/-- Number of positional arguments a Python bound-method call passes to
the underlying function: the explicit arguments plus the implicit
self. -/
def bound_call_passed (explicit : Nat) : Nat := explicit + 1

/-- Python's positional-arity check on a call: a function whose def
declares nparams parameters, none optional, raises TypeError unless it
receives exactly nparams positional arguments. -/
def arity_ok (nparams passed : Nat) : Bool := passed == nparams

/-- Command._delay (bot_commands.py lines 119-128): with more than one
argument it posts the help text; with exactly one it evaluates the
bound-method call self._set_delay(self, self.args[0]) — two explicit
arguments against def _set_delay(self, delay), a two-parameter def —
and with none it evaluates self._get_delay(self) — one explicit
argument against def _get_delay(self), a one-parameter def.  Each
dispatch enters the handler body only if the call's arity check
passes, and raises TypeError otherwise; _get_delay's body only builds
its text and sends nothing. -/
def cmd_delay {Tok : Type} (s : Sys Tok) (args : List String) :
    Except Err (Sys Tok × List String) :=
  if args.length > 1 then Except.ok (s, [COMMAND_DELAY])
  else if args.length = 1 then
    if arity_ok 2 (bound_call_passed 2) then
      Except.ok (cmd_set_delay s (args.headD ""))
    else Except.error Err.typeError
  else
    if arity_ok 1 (bound_call_passed 1) then Except.ok (s, [])
    else Except.error Err.typeError

end BotDestroyer

namespace BotDestroyer

/-- C1: the code evaluated at the claim's own example.  Setting the
delay to ten minutes stores 600000 (milliseconds), and
get_time_to_expiry_in_min subtracts elapsed minutes from that raw
stored value: for an event timestamped eleven minutes (660000 ms)
before now it returns 599989, a positive value, so the event is not
classified expired; the claim instead requires a negative value there.
For the nine-minute-old event the code returns 599991, which is at
least positive and not expired, as the claim says. -/
theorem C1_code_evaluation :
    ((cmd_set_delay (baseSys Unit) "10").fst).room.delete_after_m = some 600000 ∧
    get_time_to_expiry_in_min 600000 660000 0 = 599989 ∧
    ¬ get_time_to_expiry_in_min 600000 660000 0 < 0 ∧
    event_expired 600000 660000 (msgEvent "$e" 0) = false ∧
    get_time_to_expiry_in_min 600000 540000 0 = 599991 ∧
    0 < get_time_to_expiry_in_min 600000 540000 0 ∧
    event_expired 600000 540000 (msgEvent "$e" 0) = false := by
  refine ⟨rfl, by norm_num [get_time_to_expiry_in_min],
    by norm_num [get_time_to_expiry_in_min],
    by simp only [event_expired, msgEvent, decide_eq_false_iff_not, not_lt]
       norm_num [get_time_to_expiry_in_min],
    by norm_num [get_time_to_expiry_in_min],
    by norm_num [get_time_to_expiry_in_min],
    by simp only [event_expired, msgEvent, decide_eq_false_iff_not, not_lt]
       norm_num [get_time_to_expiry_in_min]⟩

/-- C7: the code diverges from the claim at its positive half.  The
delay command's sole dispatch to _set_delay (bot_commands.py line 126)
passes self again explicitly, so the bound call carries three
positional arguments for the two-parameter def and raises TypeError
before the handler body runs: invoking the delay command with "10" —
or with "-5" or "abc" — stores nothing and mutates nothing, exiting
with an error instead.  _set_delay's own body, had the dispatch
reached it, would reject "-5" and "abc" without mutation and store
600000 milliseconds for "10", exactly as the claim says. -/
theorem C7_delay_dispatch_typeerror : ∀ {Tok : Type} (s : Sys Tok),
    cmd_delay s ["10"] = Except.error Err.typeError ∧
    cmd_delay s ["-5"] = Except.error Err.typeError ∧
    cmd_delay s ["abc"] = Except.error Err.typeError ∧
    (cmd_set_delay s "-5").fst = s ∧
    (cmd_set_delay s "abc").fst = s ∧
    (cmd_set_delay s "10").fst.room.delete_after_m = some 600000 ∧
    (cmd_set_delay s "10").fst.row.delete_after = some 600000 := by
  intro Tok s
  exact ⟨rfl, rfl, rfl, rfl, rfl, rfl, rfl⟩

/-- C8: starting a room loop twice from a state with no task registered
for that room succeeds and then fails, and stopping a never-started
room fails. -/
theorem C8_registry_start_stop : ∀ (tasks : TaskMap) (rid : String) (c1 c2 : Bool),
    rid ∉ tasks.map Prod.fst →
    (start_room_loop tasks rid c1).fst = true ∧
    (start_room_loop (start_room_loop tasks rid c1).snd rid c2).fst = false ∧
    (stop_room_loop tasks rid).fst = false := by
  intro tasks rid c1 c2 h
  have h1 : start_room_loop tasks rid c1 = (true, (rid, c1) :: tasks) := by
    simp [start_room_loop, h]
  have h2 : tasks.find? (fun p => p.fst == rid) = none := by
    rw [List.find?_eq_none]
    intro p hp hc
    exact h (List.mem_map.mpr ⟨p, hp, beq_iff_eq.mp hc⟩)
  refine ⟨by rw [h1], ?_, by simp [stop_room_loop, h2]⟩
  rw [h1]
  simp [start_room_loop]

/-- Witness for C8 at the empty registry. -/
theorem C8_registry_start_stop_witness :
    (start_room_loop [] "r1" true).fst = true ∧
    (start_room_loop (start_room_loop [] "r1" true).snd "r1" false).fst = false ∧
    (stop_room_loop [] "r1").fst = false :=
  C8_registry_start_stop [] "r1" true false (by simp)

/-- C10: the confirm and disable command handlers leave the stored row
untouched (in particular its deletion_turned_on column), the writes of
that column exist only in Room.enable_room_loop and
Room.disable_room_loop, and a later bootstrap from the stored row sees
the same flag as before the command. -/
theorem C10_confirm_disable_do_not_persist : ∀ {Tok : Type} (s : Sys Tok)
    (tasks : TaskMap) (c : Bool),
    (cmd_confirm s tasks c).fst.row = s.row ∧
    (cmd_disable s tasks).fst.row = s.row ∧
    (enable_room_loop s tasks c).snd.fst.row.deletion_turned_on = some "1" ∧
    (disable_room_loop s tasks).snd.fst.row.deletion_turned_on = some "0" ∧
    destroyer_started_rooms [(s.room.room_id, (cmd_confirm s tasks c).fst.row)] =
      destroyer_started_rooms [(s.room.room_id, s.row)] := by
  intro Tok s tasks c
  have hc : (cmd_confirm s tasks c).fst.row = s.row := by
    cases h : s.room.accept_requested with
    | false => simp [cmd_confirm, h]
    | true =>
      cases h2 : (start_room_loop tasks s.room.room_id c).fst <;>
        simp [cmd_confirm, h, h2]
  have hd : (cmd_disable s tasks).fst.row = s.row := by
    cases h : s.room.deletion_turned_on with
    | false => simp [cmd_disable, h]
    | true =>
      cases h2 : (stop_room_loop tasks s.room.room_id).fst <;>
        simp [cmd_disable, h, h2]
  exact ⟨hc, hd, rfl, rfl, by rw [hc]⟩

/-- A candidate produced by the page scan of fetch_first_event_id lies
in the scanned page, is non-exempt and expired, and is neither already
redacted by the bot nor one of the bot's redaction events. -/
theorem ff_scan_found_spec (user_id : String) (d now_ms : Int) :
    ∀ (chunk : List Event) (ev : Event),
    ff_scan user_id d now_ms chunk = FFScan.found ev →
    ev ∈ chunk ∧ ev.source_type ∉ persist_event_types ∧
    event_expired d now_ms ev = true ∧
    event_redacted_by_bot user_id ev = false ∧
    event_redaction user_id ev = false := by
  intro chunk
  induction chunk with
  | nil => intro ev h; simp [ff_scan] at h
  | cons e rest ih =>
    intro ev h
    unfold ff_scan at h
    cases hb : event_redacted_by_bot user_id e with
    | true => simp [hb] at h
    | false =>
      cases hr : event_redaction user_id e with
      | true =>
        simp only [hb, hr, Bool.false_eq_true, if_false, if_true] at h
        obtain ⟨hmem, h2, h3, h4, h5⟩ := ih ev h
        exact ⟨List.mem_cons_of_mem _ hmem, h2, h3, h4, h5⟩
      | false =>
        by_cases hp : e.source_type ∈ persist_event_types
        · simp only [hb, hr, hp, Bool.false_eq_true, if_false, if_true] at h
          obtain ⟨hmem, h2, h3, h4, h5⟩ := ih ev h
          exact ⟨List.mem_cons_of_mem _ hmem, h2, h3, h4, h5⟩
        · cases hx : event_expired d now_ms e with
          | true =>
            simp only [hb, hr, hp, hx, Bool.false_eq_true, if_false, if_true] at h
            cases h
            exact ⟨List.mem_cons_self _ _, hp, hx, hb, hr⟩
          | false =>
            simp only [hb, hr, hp, hx, Bool.false_eq_true, if_false, if_true] at h
            obtain ⟨hmem, h2, h3, h4, h5⟩ := ih ev h
            exact ⟨List.mem_cons_of_mem _ hmem, h2, h3, h4, h5⟩

/-- Unfolding of the fetch scan loop at an absent end token. -/
theorem ff_loop_eq_none {Tok : Type} [DecidableEq Tok] (c : Client Tok) (d : Int)
    (n : Nat) (start? : Option Tok) :
    ff_loop c d (Nat.succ n) start? none = Except.ok none := rfl

/-- Unfolding of the fetch scan loop when the guard tokens agree. -/
theorem ff_loop_eq_stop {Tok : Type} [DecidableEq Tok] (c : Client Tok) (d : Int)
    (n : Nat) (start? : Option Tok) (t : Tok) (hst : start? = some t) :
    ff_loop c d (Nat.succ n) start? (some t) = Except.ok none := by
  subst hst
  conv_lhs => unfold ff_loop
  simp

/-- Unfolding of the fetch scan loop on a pagination failure. -/
theorem ff_loop_eq_err {Tok : Type} [DecidableEq Tok] (c : Client Tok) (d : Int)
    (n : Nat) (start? : Option Tok) (t : Tok) (code : Int)
    (hst : start? ≠ some t) (hmb : c.messages_back t = Except.error code) :
    ff_loop c d (Nat.succ n) start? (some t) = Except.error (Err.http code) := by
  conv_lhs => unfold ff_loop
  simp [hst, hmb]

/-- Unfolding of the fetch scan loop on a served page. -/
theorem ff_loop_eq_step {Tok : Type} [DecidableEq Tok] (c : Client Tok) (d : Int)
    (n : Nat) (start? : Option Tok) (t : Tok) (resp : RoomMessagesResponse Tok)
    (hst : start? ≠ some t) (hmb : c.messages_back t = Except.ok resp) :
    ff_loop c d (Nat.succ n) start? (some t) =
      match ff_scan c.user_id d c.now_ms resp.chunk with
      | FFScan.found ev => Except.ok (some (ev, resp.stop, resp.start))
      | FFScan.halt => Except.ok none
      | FFScan.next => ff_loop c d n resp.start resp.stop := by
  conv_lhs => unfold ff_loop
  simp [hst, hmb]

/-- A candidate returned by the backward scan of fetch_first_event_id
was served by some backward page and has the scan's properties. -/
theorem ff_loop_found_spec {Tok : Type} [DecidableEq Tok] (c : Client Tok) (d : Int) :
    ∀ (fuel : Nat) (start? stop? : Option Tok) (ev : Event) (bts bte : Option Tok),
    ff_loop c d fuel start? stop? = Except.ok (some (ev, bts, bte)) →
    ServedBack c ev ∧ ev.source_type ∉ persist_event_types ∧
    event_expired d c.now_ms ev = true ∧
    event_redacted_by_bot c.user_id ev = false ∧
    event_redaction c.user_id ev = false := by
  intro fuel
  induction fuel with
  | zero => intro s t ev bts bte h; simp [ff_loop] at h
  | succ n ih =>
    intro start? stop? ev bts bte h
    rcases stop? with _ | t
    · rw [ff_loop_eq_none] at h
      simp at h
    · by_cases hst : start? = some t
      · rw [ff_loop_eq_stop c d n start? t hst] at h
        simp at h
      · cases hmb : c.messages_back t with
        | error code =>
          rw [ff_loop_eq_err c d n start? t code hst hmb] at h
          simp at h
        | ok resp =>
          rw [ff_loop_eq_step c d n start? t resp hst hmb] at h
          cases hsc : ff_scan c.user_id d c.now_ms resp.chunk with
          | found ev2 =>
            simp only [hsc, Except.ok.injEq, Option.some.injEq,
              Prod.mk.injEq] at h
            obtain ⟨hev, -, -⟩ := h
            obtain ⟨hmem, h2, h3, h4, h5⟩ :=
              ff_scan_found_spec c.user_id d c.now_ms resp.chunk ev2 hsc
            subst hev
            exact ⟨⟨t, resp, hmb, hmem⟩, h2, h3, h4, h5⟩
          | halt =>
            simp only [hsc] at h
            simp at h
          | next =>
            simp only [hsc] at h
            exact ih resp.start resp.stop ev bts bte h

/-- A candidate produced by the context scan of set_next_event lies in
the scanned events and is non-exempt. -/
theorem snx_scan_found_spec :
    ∀ (evs : List Event) (leid leid2 : Option String) (ev : Event),
    snx_scan evs leid = (leid2, some ev) →
    ev ∈ evs ∧ ev.source_type ∉ persist_event_types := by
  intro evs
  induction evs with
  | nil => intro leid l2 ev h; simp [snx_scan] at h
  | cons e rest ih =>
    intro leid l2 ev h
    unfold snx_scan at h
    by_cases hp : e.source_type ∈ persist_event_types
    · rw [if_pos hp] at h
      obtain ⟨hm, h2⟩ := ih _ _ _ h
      exact ⟨List.mem_cons_of_mem _ hm, h2⟩
    · rw [if_neg hp] at h
      injection h with h1 h2
      injection h2 with h3
      subst h3
      exact ⟨List.mem_cons_self _ _, hp⟩

/-- Unfolding of the context walk at an absent end token. -/
theorem snx_loop_eq_none {Tok : Type} [DecidableEq Tok] (c : Client Tok)
    (n : Nat) (start? : Option Tok) (leid : Option String) :
    snx_loop c (Nat.succ n) start? none leid = Except.ok none := rfl

/-- Unfolding of the context walk when the guard tokens agree. -/
theorem snx_loop_eq_stop {Tok : Type} [DecidableEq Tok] (c : Client Tok)
    (n : Nat) (start? : Option Tok) (t : Tok) (leid : Option String)
    (hst : start? = some t) :
    snx_loop c (Nat.succ n) start? (some t) leid = Except.ok none := by
  subst hst
  conv_lhs => unfold snx_loop
  simp

/-- Unfolding of the context walk on a context failure. -/
theorem snx_loop_eq_err {Tok : Type} [DecidableEq Tok] (c : Client Tok)
    (n : Nat) (start? : Option Tok) (t : Tok) (leid : Option String) (code : Int)
    (hst : start? ≠ some t) (hcx : c.context_at leid = Except.error code) :
    snx_loop c (Nat.succ n) start? (some t) leid = Except.error (Err.http code) := by
  conv_lhs => unfold snx_loop
  simp [hst, hcx]

/-- Unfolding of the context walk on a served context. -/
theorem snx_loop_eq_step {Tok : Type} [DecidableEq Tok] (c : Client Tok)
    (n : Nat) (start? : Option Tok) (t : Tok) (leid : Option String)
    (resp : RoomContextResponse Tok)
    (hst : start? ≠ some t) (hcx : c.context_at leid = Except.ok resp) :
    snx_loop c (Nat.succ n) start? (some t) leid =
      if resp.events_after.length = 0 then Except.ok none
      else
        match snx_scan resp.events_after leid with
        | (_, some ev) => Except.ok (some (ev, resp.start, resp.stop))
        | (leid2, none) => snx_loop c n resp.start resp.stop leid2 := by
  conv_lhs => unfold snx_loop
  simp [hst, hcx]

/-- A candidate returned by the context walk of set_next_event was
served by some context lookup and is non-exempt. -/
theorem snx_loop_found_spec {Tok : Type} [DecidableEq Tok] (c : Client Tok) :
    ∀ (fuel : Nat) (start? stop? : Option Tok) (leid : Option String)
      (ev : Event) (bts bte : Option Tok),
    snx_loop c fuel start? stop? leid = Except.ok (some (ev, bts, bte)) →
    ServedCtx c ev ∧ ev.source_type ∉ persist_event_types := by
  intro fuel
  induction fuel with
  | zero => intro s t l ev bts bte h; simp [snx_loop] at h
  | succ n ih =>
    intro start? stop? leid ev bts bte h
    rcases stop? with _ | t
    · rw [snx_loop_eq_none] at h
      simp at h
    · by_cases hst : start? = some t
      · rw [snx_loop_eq_stop c n start? t leid hst] at h
        simp at h
      · cases hcx : c.context_at leid with
        | error code =>
          rw [snx_loop_eq_err c n start? t leid code hst hcx] at h
          simp at h
        | ok resp =>
          rw [snx_loop_eq_step c n start? t leid resp hst hcx] at h
          by_cases hlen : resp.events_after.length = 0
          · rw [if_pos hlen] at h
            simp at h
          · rw [if_neg hlen] at h
            rcases hsc : snx_scan resp.events_after leid with ⟨l2, fo⟩
            rcases fo with _ | ev2
            · simp only [hsc] at h
              exact ih resp.start resp.stop l2 ev bts bte h
            · simp only [hsc, Except.ok.injEq, Option.some.injEq,
                Prod.mk.injEq] at h
              obtain ⟨hev, -, -⟩ := h
              obtain ⟨hmem, h2⟩ := snx_scan_found_spec resp.events_after leid l2 ev2 hsc
              subst hev
              exact ⟨⟨leid, resp, hcx, hmem⟩, h2⟩

/-- The non-exempt, non-expired message of clientObs is not expired
under a stored delay of five. -/
theorem obs_event_not_expired : event_expired 5 0
    ⟨"$m1", 0, "m.room.message", "@alice:example.org", none⟩ = false := by
  simp only [event_expired, decide_eq_false_iff_not, not_lt]
  norm_num [get_time_to_expiry_in_min]

/-- C2 counterexample: fetch_first_event_id run against a history whose
only event is non-exempt but not yet expired persists an absent cursor
even though a non-exempt event was observed (the scan consumed the page
holding it), refuting the claimed absent-iff-never-observed
biconditional. -/
theorem C2_counterexample :
    fetch_first_event_id clientObs sysObs 4 =
      Except.ok (none, set_event sysObs none none none none) ∧
    (set_event sysObs none none none none).room.last_event_id = none ∧
    (∃ resp, clientObs.messages_back "" = Except.ok resp ∧
      msgEvent "$m1" 0 ∈ resp.chunk ∧
      (msgEvent "$m1" 0).source_type ∉ persist_event_types) := by
  refine ⟨?_, rfl, ⟨⟨some "", some "t1", [msgEvent "$m1" 0]⟩, rfl, ?_, ?_⟩⟩
  · show fetch_first_event_id clientObs sysObs
      (Nat.succ (Nat.succ (Nat.succ (Nat.succ 0)))) = _
    simp [fetch_first_event_id, ff_loop, ff_scan, clientObs, sysObs, baseSys,
      baseRoom, obs_event_not_expired, event_redacted_by_bot, event_redacted,
      event_redaction, msgEvent, persist_event_types]
  · simp
  · simp [msgEvent, persist_event_types]

/-- C2 amended: whenever fetch_first_event_id persists a present
cursor, that cursor names a non-exempt, expired event served by the
transport, not already redacted by the bot, and the row mirrors the
four cursor fields; with no candidate the state is either untouched (no
configured delay) or the cursor is cleared; set_next_event installs
only non-exempt served events or clears the cursor; and set_event
persists exactly its arguments. -/
theorem C2_cursor_soundness : ∀ {Tok : Type} [inst : DecidableEq Tok]
    (c : Client Tok) (s : Sys Tok) (fuel : Nat),
    (∀ id s2, fetch_first_event_id c s fuel = Except.ok (some id, s2) →
      ∃ ev bts bte, ServedBack c ev ∧ ev.event_id = id ∧
        ev.source_type ∉ persist_event_types ∧
        (∃ d, s.room.delete_after_m = some d ∧
          event_expired d c.now_ms ev = true) ∧
        event_redacted_by_bot c.user_id ev = false ∧
        event_redaction c.user_id ev = false ∧
        s2 = set_event s (some id) (some ev.server_timestamp) bts bte) ∧
    (∀ s2, fetch_first_event_id c s fuel = Except.ok (none, s2) →
      s2 = s ∨ s2 = set_event s none none none none) ∧
    (∀ s2, set_next_event c s fuel = Except.ok s2 →
      s2 = set_event s none none none none ∨
      ∃ ev bts bte, ServedCtx c ev ∧ ev.source_type ∉ persist_event_types ∧
        s2 = set_event s (some ev.event_id) (some ev.server_timestamp) bts bte) ∧
    (∀ eid ts bts bte,
      (set_event s eid ts bts bte).row.event_id = eid ∧
      (set_event s eid ts bts bte).row.timestamp = ts ∧
      (set_event s eid ts bts bte).row.batch_token_start = bts ∧
      (set_event s eid ts bts bte).row.batch_token_end = bte ∧
      (set_event s eid ts bts bte).room.last_event_id = eid ∧
      (set_event s eid ts bts bte).room.timestamp = ts) := by
  intro Tok inst c s fuel
  refine ⟨?_, ?_, ?_, fun eid ts bts bte => ⟨rfl, rfl, rfl, rfl, rfl, rfl⟩⟩
  · intro id s2 h
    unfold fetch_first_event_id at h
    rcases hda : s.room.delete_after_m with _ | d
    · simp only [hda] at h
      simp at h
    · simp only [hda] at h
      by_cases hd0 : d = 0
      · rw [if_pos hd0] at h
        simp at h
      · rw [if_neg hd0] at h
        cases hff : ff_loop c d fuel none (some c.empty_token) with
        | error e =>
          simp only [hff] at h
          simp at h
        | ok r =>
          rcases r with _ | ⟨ev, bts, bte⟩
          · simp only [hff] at h
            simp at h
          · simp only [hff, Except.ok.injEq, Prod.mk.injEq, Option.some.injEq] at h
            obtain ⟨hid, hs2⟩ := h
            obtain ⟨hserved, h2, h3, h4, h5⟩ :=
              ff_loop_found_spec c d fuel none (some c.empty_token) ev bts bte hff
            exact ⟨ev, bts, bte, hserved, hid, h2, ⟨d, rfl, h3⟩, h4, h5,
              by rw [← hs2, ← hid]⟩
  · intro s2 h
    unfold fetch_first_event_id at h
    rcases hda : s.room.delete_after_m with _ | d
    · simp only [hda, Except.ok.injEq, Prod.mk.injEq] at h
      exact Or.inl h.2.symm
    · simp only [hda] at h
      by_cases hd0 : d = 0
      · rw [if_pos hd0] at h
        simp only [Except.ok.injEq, Prod.mk.injEq] at h
        exact Or.inl h.2.symm
      · rw [if_neg hd0] at h
        cases hff : ff_loop c d fuel none (some c.empty_token) with
        | error e =>
          simp only [hff] at h
          simp at h
        | ok r =>
          rcases r with _ | ⟨ev, bts, bte⟩
          · simp only [hff, Except.ok.injEq, Prod.mk.injEq] at h
            exact Or.inr h.2.symm
          · simp only [hff] at h
            simp at h
  · intro s2 h
    unfold set_next_event at h
    cases hsl : snx_loop c fuel none (some c.empty_token) s.room.last_event_id with
    | error e =>
      simp only [hsl] at h
      simp at h
    | ok r =>
      rcases r with _ | ⟨ev, bts, bte⟩
      · simp only [hsl, Except.ok.injEq] at h
        exact Or.inl h.symm
      · simp only [hsl, Except.ok.injEq] at h
        obtain ⟨hserved, h2⟩ := snx_loop_found_spec c fuel none
          (some c.empty_token) s.room.last_event_id ev bts bte hsl
        exact Or.inr ⟨ev, bts, bte, hserved, h2, h.symm⟩

/-- The single message of clientFound is expired under a stored delay
of one with the clock at 120000. -/
theorem found_event_expired : event_expired 1 120000
    ⟨"$m1", 0, "m.room.message", "@alice:example.org", none⟩ = true := by
  simp only [event_expired, decide_eq_true_eq]
  norm_num [get_time_to_expiry_in_min]

/-- Witness for the amended C2 at a concrete client whose history holds
one expired non-exempt message. -/
theorem C2_cursor_soundness_witness :
    ∃ ev bts bte, ServedBack clientFound ev ∧ ev.event_id = "$m1" ∧
      ev.source_type ∉ persist_event_types ∧
      (∃ d, sysFound.room.delete_after_m = some d ∧
        event_expired d clientFound.now_ms ev = true) ∧
      event_redacted_by_bot clientFound.user_id ev = false ∧
      event_redaction clientFound.user_id ev = false ∧
      set_event sysFound (some "$m1") (some 0) (some "t1") (some "") =
        set_event sysFound (some "$m1") (some ev.server_timestamp) bts bte := by
  have hrun : fetch_first_event_id clientFound sysFound 4 =
      Except.ok (some "$m1",
        set_event sysFound (some "$m1") (some 0) (some "t1") (some "")) := by
    show fetch_first_event_id clientFound sysFound
      (Nat.succ (Nat.succ (Nat.succ (Nat.succ 0)))) = _
    simp [fetch_first_event_id, ff_loop, ff_scan, clientFound, sysFound,
      baseSys, baseRoom, found_event_expired, event_redacted_by_bot,
      event_redacted, event_redaction, msgEvent, persist_event_types]
  exact (C2_cursor_soundness clientFound sysFound 4).1 "$m1" _ hrun

/-- C6: refuted on the no-cursor branch.  When fetch_first_event_id
raises, the bare except handler of main_loop (destroy_loop.py lines
289-291) references the unbound local variable e, so the handler itself
raises a NameError: the coroutine terminates with an uncaught exception
and no diagnostic message is posted into the room, against the claimed
exactly-one diagnostic.  Evaluated here at a concrete failing input: a
room with deletion on, a configured delay and no cursor, against a
transport whose pagination fails with status 500. -/
theorem C6_fetch_failure_posts_no_message :
    main_loop clientDown sysNoCursor 1 3 =
      ⟨LoopExit.crashed Err.nameError, sysNoCursor, [TraceItem.fetchFirstCall]⟩ ∧
    ∀ m : Msg, TraceItem.message m ∉ (main_loop clientDown sysNoCursor 1 3).trace := by
  have h1 : main_loop clientDown sysNoCursor 1 3 =
      ⟨LoopExit.crashed Err.nameError, sysNoCursor, [TraceItem.fetchFirstCall]⟩ := rfl
  refine ⟨h1, ?_⟩
  intro m hm
  rw [h1] at hm
  simp at hm

/-- Unfolding of main_loop when a cursor is persisted: the backfill pass
runs first, and its failure posts a diagnostic and returns. -/
theorem main_loop_eq_cursor {Tok : Type} [DecidableEq Tok] (c : Client Tok)
    (s : Sys Tok) (fuel subfuel : Nat) (E : String)
    (hE : s.room.last_event_id = some E) :
    main_loop c s fuel subfuel =
      match delete_previous_events c s.room subfuel with
      | (Except.error e, tr) =>
        ⟨LoopExit.returned, s, tr.map TraceItem.redactEv ++
          [TraceItem.message (Msg.failed_delete_before_last e)]⟩
      | (Except.ok _, tr) =>
        ⟨(main_while c fuel subfuel s).exit, (main_while c fuel subfuel s).sys,
          tr.map TraceItem.redactEv ++ (main_while c fuel subfuel s).trace⟩ := by
  unfold main_loop
  rw [hE]

/-- Unfolding of main_loop when no cursor is persisted. -/
theorem main_loop_eq_nocursor {Tok : Type} [DecidableEq Tok] (c : Client Tok)
    (s : Sys Tok) (fuel subfuel : Nat)
    (hE : s.room.last_event_id = none) :
    main_loop c s fuel subfuel = main_while c fuel subfuel s := by
  unfold main_loop
  rw [hE]

/-- Unfolding of one steady-state iteration when the while condition is
off. -/
theorem main_while_eq_off {Tok : Type} [DecidableEq Tok] (c : Client Tok)
    (s : Sys Tok) (fuel subfuel : Nat)
    (hon : s.room.deletion_turned_on = false) :
    main_while c (Nat.succ fuel) subfuel s = ⟨LoopExit.finished, s, []⟩ := by
  unfold main_while
  rw [hon]
  rfl

/-- Unfolding of one steady-state iteration with a truthy cursor whose
redact call and cursor advance both succeed. -/
theorem main_while_eq_step_ok {Tok : Type} [DecidableEq Tok] (c : Client Tok)
    (s s2 : Sys Tok) (fuel subfuel : Nat) (E : String) (d ts : Int)
    (hon : s.room.deletion_turned_on = true)
    (hE : s.room.last_event_id = some E) (hne : E ≠ "")
    (hd : s.room.delete_after_m = some d) (hts : s.room.timestamp = some ts)
    (hred : c.redact E = Except.ok ())
    (hsnx : set_next_event c s subfuel = Except.ok s2) :
    main_while c (Nat.succ fuel) subfuel s =
      ⟨(main_while c fuel subfuel s2).exit, (main_while c fuel subfuel s2).sys,
        TraceItem.redactId E :: (main_while c fuel subfuel s2).trace⟩ := by
  have hbeq : (E == "") = false := by simp [hne]
  conv_lhs => unfold main_while
  simp [hon, hE, hd, hts, lid_truthy, hbeq, hred, hsnx]

/-- Unfolding of one steady-state iteration with a truthy cursor whose
redact call fails: one diagnostic is posted and the loop returns. -/
theorem main_while_eq_step_redact_err {Tok : Type} [DecidableEq Tok] (c : Client Tok)
    (s : Sys Tok) (fuel subfuel : Nat) (E : String) (d ts code : Int)
    (hon : s.room.deletion_turned_on = true)
    (hE : s.room.last_event_id = some E) (hne : E ≠ "")
    (hd : s.room.delete_after_m = some d) (hts : s.room.timestamp = some ts)
    (hred : c.redact E = Except.error code) :
    main_while c (Nat.succ fuel) subfuel s =
      ⟨LoopExit.returned, s, [TraceItem.redactId E,
        TraceItem.message (Msg.failed_redact_last code)]⟩ := by
  have hbeq : (E == "") = false := by simp [hne]
  conv_lhs => unfold main_while
  simp [hon, hE, hd, hts, lid_truthy, hbeq, hred]

/-- Unfolding of one steady-state iteration with a truthy cursor whose
cursor advance fails after a clean redact: one diagnostic is posted and
the loop returns. -/
theorem main_while_eq_step_snx_err {Tok : Type} [DecidableEq Tok] (c : Client Tok)
    (s : Sys Tok) (fuel subfuel : Nat) (E : String) (d ts : Int) (e : Err)
    (hon : s.room.deletion_turned_on = true)
    (hE : s.room.last_event_id = some E) (hne : E ≠ "")
    (hd : s.room.delete_after_m = some d) (hts : s.room.timestamp = some ts)
    (hred : c.redact E = Except.ok ())
    (hsnx : set_next_event c s subfuel = Except.error e) :
    main_while c (Nat.succ fuel) subfuel s =
      ⟨LoopExit.returned, s, [TraceItem.redactId E,
        TraceItem.message (Msg.failed_find_next e)]⟩ := by
  have hbeq : (E == "") = false := by simp [hne]
  conv_lhs => unfold main_while
  simp [hon, hE, hd, hts, lid_truthy, hbeq, hred, hsnx]

/-- Unfolding of one steady-state iteration with a truthy cursor but a
missing delay or timestamp: the TypeError escapes uncaught. -/
theorem main_while_eq_step_type_err {Tok : Type} [DecidableEq Tok] (c : Client Tok)
    (s : Sys Tok) (fuel subfuel : Nat) (E : String)
    (hon : s.room.deletion_turned_on = true)
    (hE : s.room.last_event_id = some E) (hne : E ≠ "")
    (hnone : s.room.delete_after_m = none ∨ s.room.timestamp = none) :
    main_while c (Nat.succ fuel) subfuel s =
      ⟨LoopExit.crashed Err.typeError, s, []⟩ := by
  have hbeq : (E == "") = false := by simp [hne]
  conv_lhs => unfold main_while
  rcases hnone with h | h
  · simp [hon, hE, lid_truthy, hbeq, h]
  · rcases hda : s.room.delete_after_m with _ | d2 <;>
      simp [hon, hE, lid_truthy, hbeq, h, hda]

/-- Unfolding of one steady-state iteration with no truthy cursor: the
fetch branch runs, and a fetch failure crashes the coroutine through
the NameError in its handler, with no diagnostic. -/
theorem main_while_eq_nocursor_step {Tok : Type} [DecidableEq Tok] (c : Client Tok)
    (s : Sys Tok) (fuel subfuel : Nat)
    (hon : s.room.deletion_turned_on = true)
    (hlid : lid_truthy s.room.last_event_id = false) :
    main_while c (Nat.succ fuel) subfuel s =
      match fetch_first_event_id c s subfuel with
      | Except.error _ =>
        ⟨LoopExit.crashed Err.nameError, s, [TraceItem.fetchFirstCall]⟩
      | Except.ok (none, s2) =>
        ⟨(main_while c fuel subfuel s2).exit, (main_while c fuel subfuel s2).sys,
          TraceItem.fetchFirstCall :: (main_while c fuel subfuel s2).trace⟩
      | Except.ok (some _, s2) =>
        match delete_previous_events c s2.room subfuel with
        | (Except.error e, tr) =>
          ⟨LoopExit.returned, s2, TraceItem.fetchFirstCall ::
            (tr.map TraceItem.redactEv ++
              [TraceItem.message (Msg.failed_delete_before_next e)])⟩
        | (Except.ok _, tr) =>
          ⟨(main_while c fuel subfuel s2).exit, (main_while c fuel subfuel s2).sys,
            TraceItem.fetchFirstCall ::
              (tr.map TraceItem.redactEv ++ (main_while c fuel subfuel s2).trace)⟩ := by
  conv_lhs => unfold main_while
  rw [hon, hlid]
  rfl

/-- C3: a room restarted with a persisted cursor (event_id E plus its
bracket), bootstrapped because its stored deletion flag is the string 1,
redacts exactly E in its first steady-state iteration and then advances
the cursor through set_next_event (whose output s2 is the resulting
state); fetch_first_event_id is never invoked and the initial
delete_previous_events pass over the already-cleared history (the
hypothesis that it succeeds with an empty redaction trace) issues no
redact calls, so the trace holds exactly the one redaction of E. -/
theorem C3_restart_resumption : ∀ {Tok : Type} [inst : DecidableEq Tok]
    (c : Client Tok) (rid E : String) (row : StoredRow Tok) (subfuel : Nat)
    (s2 : Sys Tok),
    row.event_id = some E → E ≠ "" → row.deletion_turned_on = some "1" →
    (∃ d, row.delete_after = some d) → (∃ ts, row.timestamp = some ts) →
    delete_previous_events c (room_from_row rid row) subfuel = (Except.ok (), []) →
    c.redact E = Except.ok () →
    set_next_event c ⟨room_from_row rid row, row⟩ subfuel = Except.ok s2 →
    rid ∈ destroyer_started_rooms [(rid, row)] ∧
    main_loop c ⟨room_from_row rid row, row⟩ 1 subfuel =
      ⟨LoopExit.fuelOut, s2, [TraceItem.redactId E]⟩ := by
  intro Tok inst c rid E row subfuel s2 hE hne hflag hdel htsx hdpe hred hsnx
  obtain ⟨d, hd⟩ := hdel
  obtain ⟨ts, hts⟩ := htsx
  constructor
  · simp [destroyer_started_rooms, hflag, parse_flag]
  · have hE' : (⟨room_from_row rid row, row⟩ : Sys Tok).room.last_event_id = some E := hE
    have hon : (⟨room_from_row rid row, row⟩ : Sys Tok).room.deletion_turned_on = true := by
      show parse_flag row.deletion_turned_on = true
      rw [hflag]
      rfl
    have hd' : (⟨room_from_row rid row, row⟩ : Sys Tok).room.delete_after_m = some d := hd
    have hts' : (⟨room_from_row rid row, row⟩ : Sys Tok).room.timestamp = some ts := hts
    have hdpe' : delete_previous_events c
        (Sys.room ⟨room_from_row rid row, row⟩) subfuel = (Except.ok (), []) := hdpe
    have hstep := main_while_eq_step_ok c ⟨room_from_row rid row, row⟩ s2 0 subfuel
      E d ts hon hE' hne hd' hts' hred hsnx
    rw [main_loop_eq_cursor c ⟨room_from_row rid row, row⟩ 1 subfuel E hE', hdpe']
    show (⟨(main_while c (Nat.succ 0) subfuel ⟨room_from_row rid row, row⟩).exit,
      (main_while c (Nat.succ 0) subfuel ⟨room_from_row rid row, row⟩).sys,
      List.map TraceItem.redactEv [] ++
        (main_while c (Nat.succ 0) subfuel ⟨room_from_row rid row, row⟩).trace⟩ : LoopOut Tok) = _
    rw [hstep]
    rfl

/-- Witness for C3 at a concrete restarted room whose history was
already cleared. -/
theorem C3_restart_resumption_witness :
    "!room:example.org" ∈
      destroyer_started_rooms [("!room:example.org", rowRestart)] ∧
    main_loop clientRestart
      ⟨room_from_row "!room:example.org" rowRestart, rowRestart⟩ 1 2 =
      ⟨LoopExit.fuelOut,
        set_event ⟨room_from_row "!room:example.org" rowRestart, rowRestart⟩
          none none none none,
        [TraceItem.redactId "$target"]⟩ :=
  C3_restart_resumption clientRestart "!room:example.org" "$target" rowRestart 2
    (set_event ⟨room_from_row "!room:example.org" rowRestart, rowRestart⟩
      none none none none)
    rfl (by simp) rfl ⟨1, rfl⟩ ⟨0, rfl⟩ rfl rfl rfl

/-- Every event for which the forward scan of backfill issues a redact
call is qualifying (not redacted, not a bot redaction, non-exempt) and
expired under the configured delay. -/
theorem phase2_chunk_trace_spec {Tok : Type} (c : Client Tok) (d? : Option Int)
    (leid : Option String) :
    ∀ (chunk : List Event) (ev : Event),
    ev ∈ (phase2_chunk c d? leid chunk).snd →
    qualifying c.user_id ev ∧
    ∃ d, d? = some d ∧ event_expired d c.now_ms ev = true := by
  intro chunk
  induction chunk with
  | nil => intro ev h; simp [phase2_chunk] at h
  | cons e rest ih =>
    intro ev h
    unfold phase2_chunk at h
    by_cases h1 : some e.event_id = leid
    · rw [if_pos h1] at h
      simp at h
    · rw [if_neg h1] at h
      cases h2 : event_redacted e with
      | true =>
        simp only [h2, if_true] at h
        exact ih ev h
      | false =>
        simp only [h2, Bool.false_eq_true, if_false] at h
        cases h3 : event_redaction c.user_id e with
        | true =>
          simp only [h3, if_true] at h
          exact ih ev h
        | false =>
          simp only [h3, Bool.false_eq_true, if_false] at h
          by_cases h4 : e.source_type ∈ persist_event_types
          · rw [if_pos h4] at h
            exact ih ev h
          · rw [if_neg h4] at h
            rcases d? with _ | d
            · simp at h
            · cases h5 : event_expired d c.now_ms e with
              | false =>
                simp only [h5, Bool.false_eq_true, if_false] at h
                simp at h
              | true =>
                simp only [h5, if_true] at h
                cases h6 : c.redact e.event_id with
                | error code =>
                  simp only [h6] at h
                  simp at h
                  subst h
                  exact ⟨⟨h2, h3, h4⟩, d, rfl, h5⟩
                | ok u =>
                  simp only [h6] at h
                  simp only [List.mem_cons] at h
                  rcases h with h | h
                  · subst h
                    exact ⟨⟨h2, h3, h4⟩, d, rfl, h5⟩
                  · exact ih ev h

/-- Unfolding of the forward backfill loop at an absent end token. -/
theorem phase2_loop_eq_none {Tok : Type} [DecidableEq Tok] (c : Client Tok)
    (d? : Option Int) (leid : Option String) (n : Nat) (start? : Option Tok) :
    phase2_loop c d? leid (Nat.succ n) start? none = (Except.ok (), []) := rfl

/-- Unfolding of the forward backfill loop when the guard tokens
agree. -/
theorem phase2_loop_eq_stop {Tok : Type} [DecidableEq Tok] (c : Client Tok)
    (d? : Option Int) (leid : Option String) (n : Nat) (start? : Option Tok)
    (t : Tok) (hst : start? = some t) :
    phase2_loop c d? leid (Nat.succ n) start? (some t) = (Except.ok (), []) := by
  subst hst
  conv_lhs => unfold phase2_loop
  simp

/-- Unfolding of the forward backfill loop on a pagination failure. -/
theorem phase2_loop_eq_err {Tok : Type} [DecidableEq Tok] (c : Client Tok)
    (d? : Option Int) (leid : Option String) (n : Nat) (start? : Option Tok)
    (t : Tok) (code : Int)
    (hst : start? ≠ some t) (hmf : c.messages_front t = Except.error code) :
    phase2_loop c d? leid (Nat.succ n) start? (some t) =
      (Except.error (Err.http code), []) := by
  conv_lhs => unfold phase2_loop
  simp [hst, hmf]

/-- Unfolding of the forward backfill loop on a served page. -/
theorem phase2_loop_eq_step {Tok : Type} [DecidableEq Tok] (c : Client Tok)
    (d? : Option Int) (leid : Option String) (n : Nat) (start? : Option Tok)
    (t : Tok) (resp : RoomMessagesResponse Tok)
    (hst : start? ≠ some t) (hmf : c.messages_front t = Except.ok resp) :
    phase2_loop c d? leid (Nat.succ n) start? (some t) =
      match phase2_chunk c d? leid resp.chunk with
      | (Except.error e, tr) => (Except.error e, tr)
      | (Except.ok true, tr) => (Except.ok (), tr)
      | (Except.ok false, tr) =>
        ((phase2_loop c d? leid n resp.start resp.stop).fst,
          tr ++ (phase2_loop c d? leid n resp.start resp.stop).snd) := by
  conv_lhs => unfold phase2_loop
  simp [hst, hmf]

/-- Lift of the chunk trace property through the forward backfill
loop. -/
theorem phase2_loop_trace_spec {Tok : Type} [DecidableEq Tok] (c : Client Tok)
    (d? : Option Int) (leid : Option String) :
    ∀ (fuel : Nat) (start? stop? : Option Tok) (ev : Event),
    ev ∈ (phase2_loop c d? leid fuel start? stop?).snd →
    qualifying c.user_id ev ∧
    ∃ d, d? = some d ∧ event_expired d c.now_ms ev = true := by
  intro fuel
  induction fuel with
  | zero => intro s t ev h; simp [phase2_loop] at h
  | succ n ih =>
    intro start? stop? ev h
    rcases stop? with _ | t
    · rw [phase2_loop_eq_none] at h
      simp at h
    · by_cases hst : start? = some t
      · rw [phase2_loop_eq_stop c d? leid n start? t hst] at h
        simp at h
      · cases hmf : c.messages_front t with
        | error code =>
          rw [phase2_loop_eq_err c d? leid n start? t code hst hmf] at h
          simp at h
        | ok resp =>
          rw [phase2_loop_eq_step c d? leid n start? t resp hst hmf] at h
          rcases hpc : phase2_chunk c d? leid resp.chunk with ⟨r1, tr⟩
          have htr : ∀ x, x ∈ tr → qualifying c.user_id x ∧
              ∃ d, d? = some d ∧ event_expired d c.now_ms x = true := by
            intro x hx
            exact phase2_chunk_trace_spec c d? leid resp.chunk x (by rw [hpc]; exact hx)
          rcases r1 with e1 | b
          · simp only [hpc] at h
            exact htr ev h
          · cases b with
            | true =>
              simp only [hpc] at h
              exact htr ev h
            | false =>
              simp only [hpc] at h
              rcases List.mem_append.mp h with h | h
              · exact htr ev h
              · exact ih resp.start resp.stop ev h

/-- Lift of the chunk trace property through delete_previous_events. -/
theorem dpe_trace_spec {Tok : Type} [DecidableEq Tok] (c : Client Tok)
    (st : RoomState Tok) (fuel : Nat) :
    ∀ ev, ev ∈ (delete_previous_events c st fuel).snd →
    qualifying c.user_id ev ∧
    ∃ d, st.delete_after_m = some d ∧ event_expired d c.now_ms ev = true := by
  intro ev h
  unfold delete_previous_events at h
  cases hp1 : phase1_loop c fuel none st.batch_token_end with
  | error e =>
    simp only [hp1] at h
    simp at h
  | ok pr =>
    rcases pr with ⟨pstart, pstop⟩
    simp only [hp1] at h
    exact phase2_loop_trace_spec c st.delete_after_m st.last_event_id fuel
      pstart pstop ev h

/-- If the forward scan reaches a qualifying non-expired event that is
not the cursor event, the scan ends in an error and the event is not
redacted; no event past it is processed. -/
theorem phase2_chunk_abort {Tok : Type} (c : Client Tok) (d : Int)
    (leid : Option String) :
    ∀ (pre : List Event) (post : List Event) (ev : Event),
    (∀ p, p ∈ pre → some p.event_id ≠ leid) →
    ev ∉ pre →
    some ev.event_id ≠ leid →
    qualifying c.user_id ev →
    event_expired d c.now_ms ev = false →
    (∃ err, (phase2_chunk c (some d) leid (pre ++ ev :: post)).fst =
      Except.error err) ∧
    ev ∉ (phase2_chunk c (some d) leid (pre ++ ev :: post)).snd := by
  intro pre
  induction pre with
  | nil =>
    intro post ev hpre hnm hne hq hx
    obtain ⟨hq1, hq2, hq3⟩ := hq
    simp only [List.nil_append]
    unfold phase2_chunk
    rw [if_neg hne]
    simp only [hq1, hq2, Bool.false_eq_true, if_false]
    rw [if_neg hq3]
    simp only [hx, Bool.false_eq_true, if_false]
    exact ⟨⟨Err.consistency, rfl⟩, by simp⟩
  | cons p rest ih =>
    intro post ev hpre hnm hne hq hx
    have hpne : some p.event_id ≠ leid := hpre p (List.mem_cons_self _ _)
    have hevp : ev ≠ p := fun hc => hnm (hc ▸ List.mem_cons_self _ _)
    have hnm2 : ev ∉ rest := fun hc => hnm (List.mem_cons_of_mem _ hc)
    have hpre2 : ∀ q, q ∈ rest → some q.event_id ≠ leid :=
      fun q hq2 => hpre q (List.mem_cons_of_mem _ hq2)
    have ihr := ih post ev hpre2 hnm2 hne hq hx
    simp only [List.cons_append]
    unfold phase2_chunk
    rw [if_neg hpne]
    cases h2 : event_redacted p with
    | true =>
      simp only [h2, if_true]
      exact ihr
    | false =>
      simp only [h2, Bool.false_eq_true, if_false]
      cases h3 : event_redaction c.user_id p with
      | true =>
        simp only [h3, if_true]
        exact ihr
      | false =>
        simp only [h3, Bool.false_eq_true, if_false]
        by_cases h4 : p.source_type ∈ persist_event_types
        · rw [if_pos h4]
          exact ihr
        · rw [if_neg h4]
          cases h5 : event_expired d c.now_ms p with
          | false =>
            simp only [h5, Bool.false_eq_true, if_false]
            exact ⟨⟨Err.consistency, rfl⟩, by simp⟩
          | true =>
            simp only [h5, if_true]
            cases h6 : c.redact p.event_id with
            | error code =>
              simp only [h6]
              exact ⟨⟨Err.http code, rfl⟩, by simp [hevp]⟩
            | ok u =>
              simp only [h6]
              refine ⟨ihr.1, ?_⟩
              simp only [List.mem_cons]
              intro hc
              rcases hc with hc | hc
              · exact hevp hc
              · exact ihr.2 hc

/-- C5: during the forward scan of backfill, every event for which a
redact call is issued is qualifying and expired; when a qualifying
non-expired event other than the cursor event is reached first, the
phase ends in an error without redacting it; and a page whose
processing fails makes the whole loop return that same error with that
same partial trace, so redact failures and consistency failures
propagate immediately. -/
theorem C5_backfill_scan : ∀ {Tok : Type} [inst : DecidableEq Tok]
    (c : Client Tok) (st : RoomState Tok),
    (∀ (fuel : Nat) (ev : Event), ev ∈ (delete_previous_events c st fuel).snd →
      qualifying c.user_id ev ∧
      ∃ d, st.delete_after_m = some d ∧ event_expired d c.now_ms ev = true) ∧
    (∀ (d : Int) (pre post : List Event) (ev : Event),
      st.delete_after_m = some d →
      (∀ p, p ∈ pre → some p.event_id ≠ st.last_event_id) →
      ev ∉ pre →
      some ev.event_id ≠ st.last_event_id →
      qualifying c.user_id ev →
      event_expired d c.now_ms ev = false →
      (∃ err, (phase2_chunk c st.delete_after_m st.last_event_id
        (pre ++ ev :: post)).fst = Except.error err) ∧
      ev ∉ (phase2_chunk c st.delete_after_m st.last_event_id
        (pre ++ ev :: post)).snd) ∧
    (∀ (fuel : Nat) (start? : Option Tok) (t : Tok)
      (resp : RoomMessagesResponse Tok) (e : Err) (tr : List Event),
      start? ≠ some t →
      c.messages_front t = Except.ok resp →
      phase2_chunk c st.delete_after_m st.last_event_id resp.chunk =
        (Except.error e, tr) →
      phase2_loop c st.delete_after_m st.last_event_id (Nat.succ fuel) start?
        (some t) = (Except.error e, tr)) := by
  intro Tok inst c st
  refine ⟨?_, ?_, ?_⟩
  · intro fuel ev h
    exact dpe_trace_spec c st fuel ev h
  · intro d pre post ev hd hpre hnm hne hq hx
    rw [hd]
    exact phase2_chunk_abort c d st.last_event_id pre post ev hpre hnm hne hq hx
  · intro fuel start? t resp e tr hst hmf hpc
    rw [phase2_loop_eq_step c st.delete_after_m st.last_event_id fuel start? t
      resp hst hmf]
    simp only [hpc]

/-- The event below the cursor in the idempotence history is expired
under the configured raw delay of zero. -/
theorem idem_old_expired : event_expired 0 60000
    ⟨"$old", 0, "m.room.message", "@alice:example.org", none⟩ = true := by
  simp only [event_expired, decide_eq_true_eq]
  norm_num [get_time_to_expiry_in_min]

/-- The future-dated fresh event is not expired under a raw delay of
minus one with the clock at zero. -/
theorem fresh_not_expired : event_expired (-1) 0
    ⟨"$fresh", 60000, "m.room.message", "@alice:example.org", none⟩ = false := by
  simp only [event_expired, decide_eq_false_iff_not, not_lt]
  norm_num [get_time_to_expiry_in_min]

/-- The expired message served by clientFail. -/
theorem x_expired : event_expired (-1) 0
    ⟨"$x", 0, "m.room.message", "@alice:example.org", none⟩ = true := by
  simp only [event_expired, decide_eq_true_eq]
  norm_num [get_time_to_expiry_in_min]

/-- Concrete backward pages of the idempotence history. -/
theorem histIdem_back0 : hist_back histIdem 0 = ⟨some 0, some 1, [evCursor]⟩ := rfl

/-- Concrete backward page one of the idempotence history. -/
theorem histIdem_back1 : hist_back histIdem 1 = ⟨some 1, some 2, [evOld]⟩ := rfl

/-- Concrete backward page two of the idempotence history. -/
theorem histIdem_back2 : hist_back histIdem 2 = ⟨some 2, some 3, [evBoundary]⟩ := rfl

/-- Concrete forward page three of the idempotence history. -/
theorem histIdem_front3 : hist_front histIdem 3 = ⟨some 3, some 2, [evBoundary]⟩ := rfl

/-- Concrete forward page two of the idempotence history. -/
theorem histIdem_front2 : hist_front histIdem 2 = ⟨some 2, some 1, [evOld]⟩ := rfl

/-- Concrete forward page one of the idempotence history. -/
theorem histIdem_front1 : hist_front histIdem 1 = ⟨some 1, some 0, [evCursor]⟩ := rfl

/-- First backfill run over the idempotence history: it succeeds and
redacts exactly the one qualifying expired event below the cursor. -/
theorem idem_run1 :
    delete_previous_events (hist_client "@bot:example.org" 60000 histIdem)
      stIdem 7 = (Except.ok (), [evOld]) := by
  show delete_previous_events (hist_client "@bot:example.org" 60000 histIdem)
    stIdem (Nat.succ (Nat.succ (Nat.succ (Nat.succ (Nat.succ (Nat.succ
      (Nat.succ 0))))))) = _
  simp [delete_previous_events, phase1_loop, phase1_scan, phase2_loop,
    phase2_chunk, hist_client, stIdem, histIdem_back0, histIdem_back1,
    histIdem_back2, histIdem_front3, histIdem_front2, histIdem_front1,
    evCursor, evOld, evBoundary, msgEvent, event_redacted,
    event_redacted_by_bot, event_redaction, persist_event_types,
    idem_old_expired]

/-- Witness for C5: the first run over the idempotence history redacts
the qualifying expired event (instantiating the trace property); a
qualifying non-expired event other than the cursor makes the chunk scan
abort without redacting it; and a chunk whose redact call fails makes
the loop return that redact error with the same partial trace. -/
theorem C5_backfill_scan_witness :
    (qualifying "@bot:example.org" evOld ∧
      ∃ d, stIdem.delete_after_m = some d ∧
        event_expired d 60000 evOld = true) ∧
    ((∃ err, (phase2_chunk clientFail stFail.delete_after_m
        stFail.last_event_id ([] ++ evFresh :: [])).fst = Except.error err) ∧
      evFresh ∉ (phase2_chunk clientFail stFail.delete_after_m
        stFail.last_event_id ([] ++ evFresh :: [])).snd) ∧
    phase2_loop clientFail stFail.delete_after_m stFail.last_event_id
      (Nat.succ 0) none (some "t") =
      (Except.error (Err.http 403), [msgEvent "$x" 0]) := by
  have hpc : phase2_chunk clientFail stFail.delete_after_m
      stFail.last_event_id [msgEvent "$x" 0] =
      (Except.error (Err.http 403), [msgEvent "$x" 0]) := by
    simp [phase2_chunk, clientFail, stFail, baseRoom, msgEvent, event_redacted,
      event_redaction, persist_event_types, x_expired]
  refine ⟨?_, ?_, ?_⟩
  · exact (C5_backfill_scan (hist_client "@bot:example.org" 60000 histIdem)
      stIdem).1 7 evOld (by rw [idem_run1]; simp)
  · exact (C5_backfill_scan clientFail stFail).2.1 (-1) [] [] evFresh rfl
      (by simp) (by simp) (by simp [stFail, baseRoom, evFresh, msgEvent])
      ⟨rfl, rfl, by simp [evFresh, msgEvent, persist_event_types]⟩
      fresh_not_expired
  · exact (C5_backfill_scan clientFail stFail).2.2 0 none "t"
      ⟨some "a", some "b", [msgEvent "$x" 0]⟩ (Err.http 403) [msgEvent "$x" 0]
      (by simp) rfl hpc

/-- A truthy cursor is a present non-empty id. -/
theorem lid_truthy_elim (o : Option String) (h : lid_truthy o = true) :
    ∃ E, o = some E ∧ E ≠ "" := by
  rcases o with _ | E
  · simp [lid_truthy] at h
  · refine ⟨E, rfl, ?_⟩
    simp [lid_truthy] at h
    exact h

/-- Running fetch_first_event_id preserves the property that the cursor
names no served exempt event. -/
theorem fetch_preserves_good {Tok : Type} [DecidableEq Tok] (c : Client Tok)
    (s : Sys Tok) (subfuel : Nat) (r : Option String) (s2 : Sys Tok)
    (h : fetch_first_event_id c s subfuel = Except.ok (r, s2))
    (hinj : ServedInj c) (hgc : GoodCursor c s.room.last_event_id) :
    GoodCursor c s2.room.last_event_id := by
  unfold fetch_first_event_id at h
  rcases hda : s.room.delete_after_m with _ | d
  · simp only [hda, Except.ok.injEq, Prod.mk.injEq] at h
    rw [← h.2]
    exact hgc
  · simp only [hda] at h
    by_cases hd0 : d = 0
    · rw [if_pos hd0] at h
      simp only [Except.ok.injEq, Prod.mk.injEq] at h
      rw [← h.2]
      exact hgc
    · rw [if_neg hd0] at h
      cases hff : ff_loop c d subfuel none (some c.empty_token) with
      | error e2 =>
        simp only [hff] at h
        simp at h
      | ok ro =>
        rcases ro with _ | ⟨ev, bts, bte⟩
        · simp only [hff, Except.ok.injEq, Prod.mk.injEq] at h
          rw [← h.2]
          intro id hid
          exact Option.noConfusion hid
        · simp only [hff, Except.ok.injEq, Prod.mk.injEq] at h
          rw [← h.2]
          intro id hid e2 hsrv hex
          obtain ⟨hserved, hnex, -, -, -⟩ :=
            ff_loop_found_spec c d subfuel none (some c.empty_token) ev bts bte hff
          intro hc
          have hide : id = ev.event_id := by
            have := hid
            simp only [set_event] at this
            exact (Option.some.injEq _ _).mp this.symm
          have : e2 = ev := hinj e2 ev hsrv (Or.inl hserved) (by rw [hc, hide])
          rw [this] at hex
          exact hnex hex

/-- Running set_next_event establishes the property that the cursor
names no served exempt event. -/
theorem snx_preserves_good {Tok : Type} [DecidableEq Tok] (c : Client Tok)
    (s : Sys Tok) (subfuel : Nat) (s2 : Sys Tok)
    (h : set_next_event c s subfuel = Except.ok s2)
    (hinj : ServedInj c) :
    GoodCursor c s2.room.last_event_id := by
  unfold set_next_event at h
  cases hsl : snx_loop c subfuel none (some c.empty_token) s.room.last_event_id with
  | error e2 =>
    simp only [hsl] at h
    simp at h
  | ok ro =>
    rcases ro with _ | ⟨ev, bts, bte⟩
    · simp only [hsl, Except.ok.injEq] at h
      rw [← h]
      intro id hid
      exact Option.noConfusion hid
    · simp only [hsl, Except.ok.injEq] at h
      rw [← h]
      intro id hid e2 hsrv hex
      obtain ⟨hserved, hnex⟩ := snx_loop_found_spec c subfuel none
        (some c.empty_token) s.room.last_event_id ev bts bte hsl
      intro hc
      have hide : id = ev.event_id := by
        have := hid
        simp only [set_event] at this
        exact (Option.some.injEq _ _).mp this.symm
      have : e2 = ev := hinj e2 ev hsrv (Or.inr (Or.inr hserved)) (by rw [hc, hide])
      rw [this] at hex
      exact hnex hex

/-- A redact call logged by backfill never names a given exempt
event. -/
theorem dpe_item_safe {Tok : Type} [DecidableEq Tok] (c : Client Tok)
    (st : RoomState Tok) (fuel : Nat) (e : Event)
    (hex : e.source_type ∈ persist_event_types) :
    ∀ ev, ev ∈ (delete_previous_events c st fuel).snd →
      ev ≠ e := by
  intro ev hmem hc
  obtain ⟨⟨-, -, hq3⟩, -⟩ := dpe_trace_spec c st fuel ev hmem
  rw [hc] at hq3
  exact hq3 hex

/-- No observable action of the steady-state loop redacts a given
served exempt event, as long as the cursor entering the loop does not
name it. -/
theorem main_while_exempt_safe {Tok : Type} [DecidableEq Tok] (c : Client Tok)
    (e : Event) (hinj : ServedInj c) (hsrv : Served c e)
    (hex : e.source_type ∈ persist_event_types) :
    ∀ (fuel subfuel : Nat) (s : Sys Tok),
    GoodCursor c s.room.last_event_id →
    ∀ item, item ∈ (main_while c fuel subfuel s).trace →
      item ≠ TraceItem.redactEv e ∧ item ≠ TraceItem.redactId e.event_id := by
  intro fuel
  induction fuel with
  | zero => intro subfuel s hgc item h; simp [main_while] at h
  | succ n ih =>
    intro subfuel s hgc item h
    cases hon : s.room.deletion_turned_on with
    | false =>
      rw [main_while_eq_off c s n subfuel hon] at h
      simp at h
    | true =>
      cases hlt : lid_truthy s.room.last_event_id with
      | false =>
        rw [main_while_eq_nocursor_step c s n subfuel hon hlt] at h
        cases hff : fetch_first_event_id c s subfuel with
        | error e2 =>
          simp only [hff] at h
          simp at h
          subst h
          exact ⟨by simp, by simp⟩
        | ok ro =>
          rcases ro with ⟨r, s2⟩
          have hgc2 := fetch_preserves_good c s subfuel r s2 hff hinj hgc
          rcases r with _ | rid
          · simp only [hff, List.mem_cons] at h
            rcases h with h | h
            · subst h
              exact ⟨by simp, by simp⟩
            · exact ih subfuel s2 hgc2 item h
          · rcases hdp : delete_previous_events c s2.room subfuel with ⟨rr, tr⟩
            have htr : ∀ ev, ev ∈ tr → ev ≠ e := by
              intro ev hmem
              exact dpe_item_safe c s2.room subfuel e hex ev (by rw [hdp]; exact hmem)
            rcases rr with e3 | u
            · simp only [hff, hdp, List.mem_cons, List.mem_append,
                List.mem_map, List.mem_singleton, List.not_mem_nil,
                or_false] at h
              rcases h with h | ⟨ev, hmem, h⟩ | h
              · subst h
                exact ⟨by simp, by simp⟩
              · subst h
                refine ⟨?_, by simp⟩
                intro hc
                injection hc with h4
                exact htr ev hmem h4
              · subst h
                exact ⟨by simp, by simp⟩
            · simp only [hff, hdp, List.mem_cons, List.mem_append,
                List.mem_map] at h
              rcases h with h | ⟨ev, hmem, h⟩ | h
              · subst h
                exact ⟨by simp, by simp⟩
              · subst h
                refine ⟨?_, by simp⟩
                intro hc
                injection hc with h4
                exact htr ev hmem h4
              · exact ih subfuel s2 hgc2 item h
      | true =>
        obtain ⟨E, hE, hne⟩ := lid_truthy_elim s.room.last_event_id hlt
        have hEe : e.event_id ≠ E := hgc E hE e hsrv hex
        have hheadEv : item = TraceItem.redactId E →
            item ≠ TraceItem.redactEv e ∧ item ≠ TraceItem.redactId e.event_id := by
          intro hit
          subst hit
          refine ⟨by simp, ?_⟩
          intro hc
          injection hc with h4
          exact hEe h4.symm
        rcases hda : s.room.delete_after_m with _ | d
        · rw [main_while_eq_step_type_err c s n subfuel E hon hE hne
            (Or.inl hda)] at h
          simp at h
        · rcases hts : s.room.timestamp with _ | ts
          · rw [main_while_eq_step_type_err c s n subfuel E hon hE hne
              (Or.inr hts)] at h
            simp at h
          · cases hred : c.redact E with
            | error code =>
              rw [main_while_eq_step_redact_err c s n subfuel E d ts code hon hE
                hne hda hts hred] at h
              simp only [List.mem_cons, List.not_mem_nil, or_false] at h
              rcases h with h | h
              · exact hheadEv h
              · subst h
                exact ⟨by simp, by simp⟩
            | ok u =>
              cases u
              cases hsnx : set_next_event c s subfuel with
              | error e2 =>
                rw [main_while_eq_step_snx_err c s n subfuel E d ts e2 hon hE
                  hne hda hts hred hsnx] at h
                simp only [List.mem_cons, List.not_mem_nil, or_false] at h
                rcases h with h | h
                · exact hheadEv h
                · subst h
                  exact ⟨by simp, by simp⟩
              | ok s2 =>
                rw [main_while_eq_step_ok c s s2 n subfuel E d ts hon hE hne
                  hda hts hred hsnx] at h
                simp only [List.mem_cons] at h
                rcases h with h | h
                · exact hheadEv h
                · exact ih subfuel s2 (snx_preserves_good c s subfuel s2 hsnx hinj)
                    item h

/-- C4: with a sane transport (event ids determine served events) and a
cursor that does not name a served exempt event, no redact call issued
by backfill or by the steady-state loop (which is also the only caller
of set_next_event, itself free of redact calls) ever targets a served
exempt event e, whether logged as a full event or by id. -/
theorem C4_exempt_never_redacted : ∀ {Tok : Type} [inst : DecidableEq Tok]
    (c : Client Tok) (s : Sys Tok) (fuel subfuel : Nat) (e : Event),
    ServedInj c →
    GoodCursor c s.room.last_event_id →
    Served c e →
    e.source_type ∈ persist_event_types →
    (∀ ev, ev ∈ (delete_previous_events c s.room subfuel).snd → ev ≠ e) ∧
    (∀ item, item ∈ (main_loop c s fuel subfuel).trace →
      item ≠ TraceItem.redactEv e ∧ item ≠ TraceItem.redactId e.event_id) := by
  intro Tok inst c s fuel subfuel e hinj hgc hsrv hex
  refine ⟨dpe_item_safe c s.room subfuel e hex, ?_⟩
  intro item h
  rcases hlid : s.room.last_event_id with _ | E
  · rw [main_loop_eq_nocursor c s fuel subfuel hlid] at h
    exact main_while_exempt_safe c e hinj hsrv hex fuel subfuel s hgc item h
  · rw [main_loop_eq_cursor c s fuel subfuel E hlid] at h
    rcases hdp : delete_previous_events c s.room subfuel with ⟨rr, tr⟩
    have htr : ∀ ev, ev ∈ tr → ev ≠ e := by
      intro ev hmem
      exact dpe_item_safe c s.room subfuel e hex ev (by rw [hdp]; exact hmem)
    rcases rr with e3 | u
    · simp only [hdp, List.mem_append, List.mem_map, List.mem_singleton,
        List.mem_cons, List.not_mem_nil, or_false] at h
      rcases h with ⟨ev, hmem, h⟩ | h
      · subst h
        refine ⟨?_, by simp⟩
        intro hc
        injection hc with h4
        exact htr ev hmem h4
      · subst h
        exact ⟨by simp, by simp⟩
    · simp only [hdp, List.mem_append, List.mem_map] at h
      rcases h with ⟨ev, hmem, h⟩ | h
      · subst h
        refine ⟨?_, by simp⟩
        intro hc
        injection hc with h4
        exact htr ev hmem h4
      · exact main_while_exempt_safe c e hinj hsrv hex fuel subfuel s hgc item h

/-- Every event the clientExempt transport can serve is its one exempt
membership event. -/
theorem clientExempt_served (ev : Event) (h : Served clientExempt ev) :
    ev = evExempt := by
  rcases h with ⟨t, resp, hm, hmem⟩ | ⟨t, resp, hm, hmem⟩ | ⟨q, resp, hm, hmem⟩
  · simp only [clientExempt] at hm
    split at hm
    · injection hm with h2
      rw [← h2] at hmem
      simpa [evExempt] using hmem
    · injection hm with h2
      rw [← h2] at hmem
      simp at hmem
  · simp only [clientExempt] at hm
    injection hm with h2
    rw [← h2] at hmem
    simp at hmem
  · simp only [clientExempt] at hm
    injection hm with h2
    rw [← h2] at hmem
    simp at hmem

/-- Witness for C4 at the transport whose whole history is one exempt
membership event and a room with no cursor. -/
theorem C4_exempt_never_redacted_witness :
    (∀ ev, ev ∈ (delete_previous_events clientExempt sysNoCursor.room 4).snd →
      ev ≠ evExempt) ∧
    (∀ item, item ∈ (main_loop clientExempt sysNoCursor 1 4).trace →
      item ≠ TraceItem.redactEv evExempt ∧
      item ≠ TraceItem.redactId evExempt.event_id) :=
  C4_exempt_never_redacted clientExempt sysNoCursor 1 4 evExempt
    (fun a b ha hb _ => by
      rw [clientExempt_served a ha, clientExempt_served b hb])
    (fun id hid => Option.noConfusion hid)
    (Or.inl ⟨"", ⟨some "", some "t1", [evExempt]⟩, rfl, by simp⟩)
    (by simp [evExempt, persist_event_types])

/-- The one-element page cut from a newest-first history at a
position. -/
theorem get_take_one_drop : ∀ (i : Nat) (H : List Event),
    (H.drop i).take 1 =
      (match H.get? i with
       | some ev => [ev]
       | none => []) := by
  intro i
  induction i with
  | zero =>
    intro H
    cases H <;> rfl
  | succ k ih =>
    intro H
    cases H with
    | nil => rfl
    | cons a t => exact ih t

/-- The page scan of phase one sees exactly whether the event at the
page's position is already redacted by the bot. -/
theorem phase1_scan_chunk (uid : String) (H : List Event) (i : Nat) :
    phase1_scan uid ((H.drop i).take 1) = markedAt uid H i := by
  rw [get_take_one_drop]
  unfold markedAt
  rcases h : H.get? i with _ | ev
  · rfl
  · show phase1_scan uid [ev] = event_redacted_by_bot uid ev
    cases hb : event_redacted_by_bot uid ev
    · unfold phase1_scan
      rw [hb]
      rfl
    · unfold phase1_scan
      rw [hb]
      rfl

/-- The one-element forward page cut from a newest-first history. -/
theorem take_succ_drop : ∀ (k : Nat) (H : List Event),
    (H.take (k+1)).drop k =
      (match H.get? k with
       | some ev => [ev]
       | none => []) := by
  intro k
  induction k with
  | zero =>
    intro H
    cases H <;> rfl
  | succ k ih =>
    intro H
    cases H with
    | nil => rfl
    | cons a t => exact ih t

/-- A position holding a bot-redacted event lies inside the history. -/
theorem markedAt_lt (uid : String) (H : List Event) (i : Nat)
    (h : markedAt uid H i = true) : i < H.length := by
  by_cases hi : i < H.length
  · exact hi
  · have hn : H.get? i = none := List.get?_eq_none.mpr (le_of_not_lt hi)
    unfold markedAt at h
    rw [hn] at h
    cases h

/-- Marking preserves positions. -/
theorem mark_ids_get? (uid : String) (ids : List String) (H : List Event)
    (i : Nat) :
    (mark_ids uid ids H).get? i = (H.get? i).map (mark_event uid ids) :=
  List.get?_map _ _ _

/-- Marking preserves the length of the history. -/
theorem mark_ids_length (uid : String) (ids : List String) (H : List Event) :
    (mark_ids uid ids H).length = H.length :=
  List.length_map _ _

/-- Marking preserves event identifiers. -/
theorem mark_event_id (uid : String) (ids : List String) (ev : Event) :
    (mark_event uid ids ev).event_id = ev.event_id := by
  unfold mark_event
  split <;> rfl

/-- A marked event reads as redacted. -/
theorem mark_event_redacted (uid : String) (ids : List String) (ev : Event)
    (h : ev.event_id ∈ ids) : event_redacted (mark_event uid ids ev) = true := by
  simp [mark_event, h, event_redacted]

/-- A marked event reads as redacted by the bot. -/
theorem mark_event_marked (uid : String) (ids : List String) (ev : Event)
    (h : ev.event_id ∈ ids) :
    event_redacted_by_bot uid (mark_event uid ids ev) = true := by
  simp [mark_event, h, event_redacted_by_bot, event_redacted]

/-- Marking never removes an existing bot redaction. -/
theorem mark_event_preserves_marked (uid : String) (ids : List String)
    (ev : Event) (h : event_redacted_by_bot uid ev = true) :
    event_redacted_by_bot uid (mark_event uid ids ev) = true := by
  unfold mark_event
  split
  · simp [event_redacted_by_bot, event_redacted]
  · exact h

/-- Marking an event whose id is not listed changes nothing. -/
theorem mark_event_noop (uid : String) (ids : List String) (ev : Event)
    (h : ev.event_id ∉ ids) : mark_event uid ids ev = ev := by
  simp [mark_event, h]

/-- Marking with an empty id list is the identity. -/
theorem mark_ids_nil (uid : String) (H : List Event) :
    mark_ids uid [] H = H := by
  induction H with
  | nil => rfl
  | cons a t ih =>
    unfold mark_ids at ih ⊢
    simp only [List.map_cons, ih]
    rw [mark_event_noop uid [] a (by simp)]

/-- Marking preserves the skip classification of the forward scan. -/
theorem mark_event_skip (uid : String) (ids : List String)
    (leid : Option String) (ev : Event) (h : skipEv uid leid ev) :
    skipEv uid leid (mark_event uid ids ev) := by
  obtain ⟨h1, h2⟩ := h
  constructor
  · rw [mark_event_id]
    exact h1
  · unfold mark_event
    split
    · left
      simp [event_redacted]
    · exact h2

/-- Unfolding of the backward boundary loop when the guard tokens
agree. -/
theorem phase1_loop_eq_stop {Tok : Type} [DecidableEq Tok] (c : Client Tok)
    (n : Nat) (start? : Option Tok) (t : Tok) (hst : start? = some t) :
    phase1_loop c (Nat.succ n) start? (some t) = Except.ok (start?, some t) := by
  subst hst
  conv_lhs => unfold phase1_loop
  simp

/-- Unfolding of the backward boundary loop on a pagination failure. -/
theorem phase1_loop_eq_err {Tok : Type} [DecidableEq Tok] (c : Client Tok)
    (n : Nat) (start? : Option Tok) (t : Tok) (code : Int)
    (hst : start? ≠ some t) (hmb : c.messages_back t = Except.error code) :
    phase1_loop c (Nat.succ n) start? (some t) =
      Except.error (Err.http code) := by
  conv_lhs => unfold phase1_loop
  simp [hst, hmb]

/-- Unfolding of the backward boundary loop on a served page. -/
theorem phase1_loop_eq_step {Tok : Type} [DecidableEq Tok] (c : Client Tok)
    (n : Nat) (start? : Option Tok) (t : Tok) (resp : RoomMessagesResponse Tok)
    (hst : start? ≠ some t) (hmb : c.messages_back t = Except.ok resp) :
    phase1_loop c (Nat.succ n) start? (some t) =
      if phase1_scan c.user_id resp.chunk then Except.ok (resp.start, resp.stop)
      else phase1_loop c n resp.start resp.stop := by
  conv_lhs => unfold phase1_loop
  simp [hst, hmb]

/-- Characterization of the backward boundary scan over a linear
history: it runs out of fuel, stops with equal tokens having seen no
bot-redacted event from its from-token on (unless it stopped because
the guard tokens already agreed), or stops just past the first
bot-redacted position at or after its from-token. -/
theorem hist_phase1_spec (uid : String) (now : Int) (H : List Event) :
    ∀ (fuel : Nat) (s? : Option Nat) (t : Nat),
    phase1_loop (hist_client uid now H) fuel s? (some t) =
      Except.error Err.fuelOut ∨
    ((∃ x, phase1_loop (hist_client uid now H) fuel s? (some t) =
        Except.ok (x, x)) ∧
      (s? = some t ∨ ∀ i, t ≤ i → markedAt uid H i = false)) ∨
    (∃ m, t ≤ m ∧ markedAt uid H m = true ∧
      (∀ i, t ≤ i → i < m → markedAt uid H i = false) ∧
      phase1_loop (hist_client uid now H) fuel s? (some t) =
        Except.ok (some m, some (min (m+1) H.length))) := by
  intro fuel
  induction fuel with
  | zero =>
    intro s? t
    exact Or.inl rfl
  | succ n ih =>
    intro s? t
    by_cases hst : s? = some t
    · refine Or.inr (Or.inl ⟨⟨some t, ?_⟩, Or.inl hst⟩)
      rw [phase1_loop_eq_stop _ n s? t hst, hst]
    · have hmb : (hist_client uid now H).messages_back t =
          Except.ok (hist_back H t) := rfl
      have hbs : (hist_back H t).start = some t := rfl
      have hbe : (hist_back H t).stop = some (min (t+1) H.length) := rfl
      have hbc : (hist_back H t).chunk = (H.drop t).take 1 := rfl
      have hu : (hist_client uid now H).user_id = uid := rfl
      rw [phase1_loop_eq_step _ n s? t (hist_back H t) hst hmb, hbs, hbe, hbc,
        hu, phase1_scan_chunk uid H t]
      cases hm : markedAt uid H t with
      | true =>
        rw [if_pos rfl]
        exact Or.inr (Or.inr ⟨t, le_refl t, hm,
          fun i h1 h2 => absurd (lt_of_le_of_lt h1 h2) (lt_irrefl t), rfl⟩)
      | false =>
        rw [if_neg (by simp)]
        rcases ih (some t) (min (t+1) H.length) with h | ⟨⟨x, hx⟩, hrest⟩ | ⟨m, hm1, hm2, hm3, hm4⟩
        · exact Or.inl h
        · refine Or.inr (Or.inl ⟨⟨x, hx⟩, Or.inr ?_⟩)
          intro i hi
          rcases Nat.lt_or_ge i (t+1) with hi2 | hi2
          · have : i = t := Nat.le_antisymm (Nat.lt_succ_iff.mp hi2) hi
            rw [this]
            exact hm
          · rcases hrest with hrest | hrest
            · have heq : t = min (t+1) H.length := by injection hrest
              have hlen : H.length ≤ t := by
                rcases Nat.le_total (t+1) H.length with h2 | h2
                · rw [min_eq_left h2] at heq
                  omega
                · rw [min_eq_right h2] at heq
                  omega
              cases h3 : markedAt uid H i with
              | false => rfl
              | true =>
                have := markedAt_lt uid H i h3
                omega
            · have hge : min (t+1) H.length ≤ i := by
                rcases Nat.le_total (t+1) H.length with h2 | h2
                · rw [min_eq_left h2]
                  exact hi2
                · rw [min_eq_right h2]
                  exact le_trans h2 hi2
              exact hrest i hge
        · by_cases hlen : t + 1 ≤ H.length
          · rw [min_eq_left hlen] at hm1 hm3
            refine Or.inr (Or.inr ⟨m, le_trans (Nat.le_succ t) hm1, hm2, ?_, hm4⟩)
            intro i h1 h2
            rcases Nat.lt_or_ge i (t+1) with hi2 | hi2
            · have : i = t := Nat.le_antisymm (Nat.lt_succ_iff.mp hi2) h1
              rw [this]
              exact hm
            · exact hm3 i hi2 h2
          · have hminr : min (t+1) H.length = H.length :=
              min_eq_right (le_of_not_le hlen)
            rw [hminr] at hm1
            have := markedAt_lt uid H m hm2
            omega

/-- Processing a one-event page that is the cursor event stops the
scan. -/
theorem phase2_chunk_stopone {Tok : Type} (c : Client Tok) (d? : Option Int)
    (leid : Option String) (ev : Event) (h : some ev.event_id = leid) :
    phase2_chunk c d? leid [ev] = (Except.ok true, []) := by
  unfold phase2_chunk
  rw [if_pos h]

/-- Processing a one-event page in the skip class issues no redact
call and continues. -/
theorem phase2_chunk_skipone {Tok : Type} (c : Client Tok) (d? : Option Int)
    (leid : Option String) (ev : Event) (h : skipEv c.user_id leid ev) :
    phase2_chunk c d? leid [ev] = (Except.ok false, []) := by
  obtain ⟨hne, hsk⟩ := h
  unfold phase2_chunk
  rw [if_neg hne]
  cases hr1 : event_redacted ev with
  | true =>
    rfl
  | false =>
    cases hr2 : event_redaction c.user_id ev with
    | true =>
      rfl
    | false =>
      rcases hsk with h | h | h
      · simp [hr1] at h
      · simp [hr2] at h
      · rw [if_pos h]
        rfl

/-- Processing a one-event page holding a qualifying expired event
whose redact call succeeds logs exactly that redaction and
continues. -/
theorem phase2_chunk_redactone {Tok : Type} (c : Client Tok) (d : Int)
    (leid : Option String) (ev : Event)
    (hne : some ev.event_id ≠ leid) (h1 : event_redacted ev = false)
    (h2 : event_redaction c.user_id ev = false)
    (h3 : ev.source_type ∉ persist_event_types)
    (hx : event_expired d c.now_ms ev = true)
    (hro : c.redact ev.event_id = Except.ok ()) :
    phase2_chunk c (some d) leid [ev] = (Except.ok false, [ev]) := by
  unfold phase2_chunk
  rw [if_neg hne, h1, h2, if_neg h3]
  simp only [hx, hro]
  rfl

/-- Processing a one-event page holding a qualifying event with no
configured delay raises the TypeError. -/
theorem phase2_chunk_typeone {Tok : Type} (c : Client Tok)
    (leid : Option String) (ev : Event)
    (hne : some ev.event_id ≠ leid) (h1 : event_redacted ev = false)
    (h2 : event_redaction c.user_id ev = false)
    (h3 : ev.source_type ∉ persist_event_types) :
    phase2_chunk c none leid [ev] = (Except.error Err.typeError, []) := by
  unfold phase2_chunk
  rw [if_neg hne, h1, h2, if_neg h3]
  rfl

/-- Processing a one-event page holding a qualifying non-expired event
raises the consistency error. -/
theorem phase2_chunk_consistone {Tok : Type} (c : Client Tok) (d : Int)
    (leid : Option String) (ev : Event)
    (hne : some ev.event_id ≠ leid) (h1 : event_redacted ev = false)
    (h2 : event_redaction c.user_id ev = false)
    (h3 : ev.source_type ∉ persist_event_types)
    (hx : event_expired d c.now_ms ev = false) :
    phase2_chunk c (some d) leid [ev] = (Except.error Err.consistency, []) := by
  unfold phase2_chunk
  rw [if_neg hne, h1, h2, if_neg h3]
  simp only [hx]
  rfl

/-- The forward pass over a history whose positions between the stop
point and the from-token are all in the skip class, with the cursor
event just below the stop point (or the stop point at the origin),
issues no redact calls at all. -/
theorem hist_phase2_cleared (uid : String) (now : Int) (H2 : List Event)
    (d? : Option Int) (leid : Option String) (s : Nat)
    (hstop : s = 0 ∨ ∃ ev, H2.get? (s-1) = some ev ∧ some ev.event_id = leid) :
    ∀ (fuel tok : Nat) (s? : Option Nat),
    s ≤ tok →
    (∀ i, s ≤ i → i < tok → ∃ ev, H2.get? i = some ev ∧ skipEv uid leid ev) →
    (phase2_loop (hist_client uid now H2) d? leid fuel s? (some tok)).snd = [] := by
  intro fuel
  induction fuel with
  | zero =>
    intro tok s? hs hclear
    rfl
  | succ n ih =>
    intro tok s? hs hclear
    by_cases hst : s? = some tok
    · rw [phase2_loop_eq_stop _ d? leid n s? tok hst]
    · have hmf : (hist_client uid now H2).messages_front tok =
          Except.ok (hist_front H2 tok) := rfl
      rw [phase2_loop_eq_step _ d? leid n s? tok (hist_front H2 tok) hst hmf]
      rcases tok with _ | k
      · have hfc : (hist_front H2 0).chunk = [] := rfl
        have hch : phase2_chunk (hist_client uid now H2) d? leid [] =
            (Except.ok false, []) := rfl
        have hfs : (hist_front H2 0).start = some 0 := rfl
        have hfe : (hist_front H2 0).stop = some 0 := rfl
        simp only [hfc, hch, hfs, hfe, List.nil_append]
        exact ih 0 (some 0) hs hclear
      · have hfs : (hist_front H2 (k+1)).start = some (k+1) := rfl
        have hfe : (hist_front H2 (k+1)).stop = some k := rfl
        rcases hgk : H2.get? k with _ | ev
        · have hsk : s ≤ k := by
            rcases Nat.lt_or_ge k s with h1 | h1
            · have hs1 : s = k+1 := by omega
              rcases hstop with h0 | ⟨ev', hev', -⟩
              · omega
              · rw [hs1, show k+1-1 = k from rfl, hgk] at hev'
                exact absurd hev' (by simp)
            · exact h1
          have hfc : (hist_front H2 (k+1)).chunk = [] := by
            show ((H2.take (k+1)).drop ((k+1)-1)).reverse = []
            rw [show (k+1)-1 = k from rfl, take_succ_drop, hgk]
            rfl
          have hch : phase2_chunk (hist_client uid now H2) d? leid [] =
              (Except.ok false, []) := rfl
          simp only [hfc, hch, hfs, hfe, List.nil_append]
          exact ih k (some (k+1)) hsk
            (fun i h1 h2 => hclear i h1 (Nat.lt_succ_of_lt h2))
        · rcases Nat.lt_or_ge k s with hks | hks
          · have hs1 : s = k + 1 := by omega
            rcases hstop with h0 | ⟨ev', hev', hmat⟩
            · omega
            · rw [hs1, show k+1-1 = k from rfl, hgk] at hev'
              injection hev' with hev2
              have hmatch : some ev.event_id = leid := by
                rw [hev2]
                exact hmat
              have hfc : (hist_front H2 (k+1)).chunk = [ev] := by
                show ((H2.take (k+1)).drop ((k+1)-1)).reverse = [ev]
                rw [show (k+1)-1 = k from rfl, take_succ_drop, hgk]
                rfl
              have hch := phase2_chunk_stopone (hist_client uid now H2) d? leid
                ev hmatch
              simp only [hfc, hch, hfs, hfe]
          · obtain ⟨ev', hev', hskip⟩ := hclear k hks (Nat.lt_succ_self k)
            rw [hgk] at hev'
            injection hev' with hev2
            rw [hev2] at hgk
            have hskip2 : skipEv (hist_client uid now H2).user_id leid ev' :=
              hskip
            have hfc : (hist_front H2 (k+1)).chunk = [ev'] := by
              show ((H2.take (k+1)).drop ((k+1)-1)).reverse = [ev']
              rw [show (k+1)-1 = k from rfl, take_succ_drop, hgk]
              rfl
            have hch := phase2_chunk_skipone (hist_client uid now H2) d? leid
              ev' hskip2
            simp only [hfc, hch, hfs, hfe, List.nil_append]
            exact ih k (some (k+1)) (le_trans hks (Nat.le_refl k))
              (fun i h1 h2 => hclear i h1 (Nat.lt_succ_of_lt h2))

/-- Unfolding of delete_previous_events when phase one succeeds. -/
theorem dpe_eq {Tok : Type} [DecidableEq Tok] (c : Client Tok)
    (st : RoomState Tok) (fuel : Nat) (p q : Option Tok)
    (hp : phase1_loop c fuel none st.batch_token_end = Except.ok (p, q)) :
    delete_previous_events c st fuel =
      phase2_loop c st.delete_after_m st.last_event_id fuel p q := by
  unfold delete_previous_events
  rw [hp]

/-- Unfolding of delete_previous_events when phase one fails. -/
theorem dpe_eq_err {Tok : Type} [DecidableEq Tok] (c : Client Tok)
    (st : RoomState Tok) (fuel : Nat) (e : Err)
    (hp : phase1_loop c fuel none st.batch_token_end = Except.error e) :
    delete_previous_events c st fuel = (Except.error e, []) := by
  unfold delete_previous_events
  rw [hp]

/-- A position is marked exactly when it holds a bot-redacted event. -/
theorem markedAt_iff (uid : String) (H : List Event) (i : Nat) :
    markedAt uid H i = true ↔
      ∃ ev, H.get? i = some ev ∧ event_redacted_by_bot uid ev = true := by
  unfold markedAt
  rcases h : H.get? i with _ | ev
  · simp
  · simp

/-- Applying redactions never unmarks a position. -/
theorem markedAt_mark_ids (uid : String) (ids : List String) (H : List Event)
    (i : Nat) (h : markedAt uid H i = true) :
    markedAt uid (mark_ids uid ids H) i = true := by
  obtain ⟨ev, hg, hb⟩ := (markedAt_iff uid H i).mp h
  refine (markedAt_iff uid (mark_ids uid ids H) i).mpr
    ⟨mark_event uid ids ev, ?_, mark_event_preserves_marked uid ids ev hb⟩
  rw [mark_ids_get?, hg]
  rfl

/-- In a history with pairwise distinct event identifiers, an
identifier determines its position. -/
theorem nodup_get?_inj (H : List Event)
    (hnd : (H.map Event.event_id).Nodup) (i j : Nat) (ei ej : Event)
    (hi : H.get? i = some ei) (hj : H.get? j = some ej)
    (hid : ei.event_id = ej.event_id) : i = j := by
  have hilen : i < H.length := by
    by_contra hc
    rw [List.get?_eq_none.mpr (le_of_not_lt hc)] at hi
    exact Option.noConfusion hi
  have hi' : (H.map Event.event_id).get? i = some ei.event_id := by
    rw [List.get?_map, hi]
    rfl
  have hj' : (H.map Event.event_id).get? j = some ej.event_id := by
    rw [List.get?_map, hj]
    rfl
  exact List.get?_inj (by rw [List.length_map]; exact hilen) hnd
    (by rw [hi', hj', hid])

/-- Coverage of a successful forward backfill pass over a linear
history: it determines a stop position s at or below the from-token
such that every event between s and the from-token is either in the
skip class or was redacted by the pass, the position just below s
holds the cursor event (unless s is the origin or the guard tokens
already agreed), and every redacted event sits between s and the
from-token. -/
theorem hist_phase2_cover (uid : String) (now : Int) (H : List Event)
    (d? : Option Int) (leid : Option String) :
    ∀ (fuel tok : Nat) (s? : Option Nat) (T : List Event),
    tok ≤ H.length →
    phase2_loop (hist_client uid now H) d? leid fuel s? (some tok) =
      (Except.ok (), T) →
    ∃ s, s ≤ tok ∧
      (∀ i, s ≤ i → i < tok → ∃ ev, H.get? i = some ev ∧
        (skipEv uid leid ev ∨ (some ev.event_id ≠ leid ∧ ev ∈ T))) ∧
      (s = 0 ∨ s? = some tok ∨
        ∃ ev, H.get? (s-1) = some ev ∧ some ev.event_id = leid) ∧
      (∀ e2, e2 ∈ T → ∃ i, s ≤ i ∧ i < tok ∧ H.get? i = some e2) := by
  intro fuel
  induction fuel with
  | zero =>
    intro tok s? T hlen h
    simp [phase2_loop] at h
  | succ n ih =>
    intro tok s? T hlen h
    by_cases hst : s? = some tok
    · rw [phase2_loop_eq_stop _ d? leid n s? tok hst] at h
      injection h with h1 h2
      refine ⟨tok, le_refl tok, ?_, Or.inr (Or.inl hst), ?_⟩
      · intro i hi1 hi2
        omega
      · intro e2 he2
        rw [← h2] at he2
        exact absurd he2 (List.not_mem_nil e2)
    · have hmf : (hist_client uid now H).messages_front tok =
          Except.ok (hist_front H tok) := rfl
      rw [phase2_loop_eq_step _ d? leid n s? tok (hist_front H tok) hst hmf]
        at h
      rcases tok with _ | k
      · have hfc : (hist_front H 0).chunk = [] := rfl
        have hch : phase2_chunk (hist_client uid now H) d? leid [] =
            (Except.ok false, []) := rfl
        have hfs : (hist_front H 0).start = some 0 := rfl
        have hfe : (hist_front H 0).stop = some 0 := rfl
        simp only [hfc, hch, hfs, hfe] at h
        rcases hloop : phase2_loop (hist_client uid now H) d? leid n
            (some 0) (some 0) with ⟨rf, rs⟩
        simp only [hloop, List.nil_append] at h
        injection h with h1 h2
        obtain ⟨s, hs, hcov, hstop, hTc⟩ := ih 0 (some 0) T (Nat.zero_le _)
          (by rw [hloop, h1, h2])
        refine ⟨0, le_refl 0, ?_, Or.inl rfl, ?_⟩
        · intro i hi1 hi2
          omega
        · intro e2 he2
          obtain ⟨i, hi1, hi2, hi3⟩ := hTc e2 he2
          omega
      · have hkl : k < H.length := by omega
        rcases hgk0 : H.get? k with _ | ev
        · exact absurd (List.get?_eq_none.mp hgk0) (by omega)
        · have hfs : (hist_front H (k+1)).start = some (k+1) := rfl
          have hfe : (hist_front H (k+1)).stop = some k := rfl
          have hfc : (hist_front H (k+1)).chunk = [ev] := by
            show ((H.take (k+1)).drop ((k+1)-1)).reverse = [ev]
            rw [show (k+1)-1 = k from rfl, take_succ_drop, hgk0]
            rfl
          by_cases hid : some ev.event_id = leid
          · have hch := phase2_chunk_stopone (hist_client uid now H) d? leid
              ev hid
            simp only [hfc, hch] at h
            injection h with h1 h2
            refine ⟨k+1, le_refl _, ?_, Or.inr (Or.inr ⟨ev, ?_, hid⟩), ?_⟩
            · intro i hi1 hi2
              omega
            · rw [show (k+1)-1 = k from rfl]
              exact hgk0
            · intro e2 he2
              rw [← h2] at he2
              exact absurd he2 (List.not_mem_nil e2)
          · cases hr1 : event_redacted ev with
            | true =>
              have hskip : skipEv (hist_client uid now H).user_id leid ev :=
                ⟨hid, Or.inl hr1⟩
              have hch := phase2_chunk_skipone (hist_client uid now H) d? leid
                ev hskip
              simp only [hfc, hch, hfs, hfe] at h
              rcases hloop : phase2_loop (hist_client uid now H) d? leid n
                  (some (k+1)) (some k) with ⟨rf, rs⟩
              simp only [hloop, List.nil_append] at h
              injection h with h1 h2
              obtain ⟨s, hs, hcov, hstop, hTc⟩ := ih k (some (k+1)) T
                (by omega) (by rw [hloop, h1, h2])
              refine ⟨s, by omega, ?_, ?_, ?_⟩
              · intro i hi1 hi2
                rcases Nat.lt_or_ge i k with hik | hik
                · exact hcov i hi1 hik
                · have hieq : i = k := by omega
                  subst hieq
                  exact ⟨ev, hgk0, Or.inl ⟨hid, Or.inl hr1⟩⟩
              · rcases hstop with h0 | hmid | hcur
                · exact Or.inl h0
                · injection hmid with hmid
                  omega
                · exact Or.inr (Or.inr hcur)
              · intro e2 he2
                obtain ⟨i, hi1, hi2, hi3⟩ := hTc e2 he2
                exact ⟨i, hi1, by omega, hi3⟩
            | false =>
              cases hr2 : event_redaction uid ev with
              | true =>
                have hskip : skipEv (hist_client uid now H).user_id leid ev :=
                  ⟨hid, Or.inr (Or.inl hr2)⟩
                have hch := phase2_chunk_skipone (hist_client uid now H) d?
                  leid ev hskip
                simp only [hfc, hch, hfs, hfe] at h
                rcases hloop : phase2_loop (hist_client uid now H) d? leid n
                    (some (k+1)) (some k) with ⟨rf, rs⟩
                simp only [hloop, List.nil_append] at h
                injection h with h1 h2
                obtain ⟨s, hs, hcov, hstop, hTc⟩ := ih k (some (k+1)) T
                  (by omega) (by rw [hloop, h1, h2])
                refine ⟨s, by omega, ?_, ?_, ?_⟩
                · intro i hi1 hi2
                  rcases Nat.lt_or_ge i k with hik | hik
                  · exact hcov i hi1 hik
                  · have hieq : i = k := by omega
                    subst hieq
                    exact ⟨ev, hgk0, Or.inl ⟨hid, Or.inr (Or.inl hr2)⟩⟩
                · rcases hstop with h0 | hmid | hcur
                  · exact Or.inl h0
                  · injection hmid with hmid
                    omega
                  · exact Or.inr (Or.inr hcur)
                · intro e2 he2
                  obtain ⟨i, hi1, hi2, hi3⟩ := hTc e2 he2
                  exact ⟨i, hi1, by omega, hi3⟩
              | false =>
                by_cases hr3 : ev.source_type ∈ persist_event_types
                · have hskip : skipEv (hist_client uid now H).user_id leid ev :=
                    ⟨hid, Or.inr (Or.inr hr3)⟩
                  have hch := phase2_chunk_skipone (hist_client uid now H) d?
                    leid ev hskip
                  simp only [hfc, hch, hfs, hfe] at h
                  rcases hloop : phase2_loop (hist_client uid now H) d? leid n
                      (some (k+1)) (some k) with ⟨rf, rs⟩
                  simp only [hloop, List.nil_append] at h
                  injection h with h1 h2
                  obtain ⟨s, hs, hcov, hstop, hTc⟩ := ih k (some (k+1)) T
                    (by omega) (by rw [hloop, h1, h2])
                  refine ⟨s, by omega, ?_, ?_, ?_⟩
                  · intro i hi1 hi2
                    rcases Nat.lt_or_ge i k with hik | hik
                    · exact hcov i hi1 hik
                    · have hieq : i = k := by omega
                      subst hieq
                      exact ⟨ev, hgk0, Or.inl ⟨hid, Or.inr (Or.inr hr3)⟩⟩
                  · rcases hstop with h0 | hmid | hcur
                    · exact Or.inl h0
                    · injection hmid with hmid
                      omega
                    · exact Or.inr (Or.inr hcur)
                  · intro e2 he2
                    obtain ⟨i, hi1, hi2, hi3⟩ := hTc e2 he2
                    exact ⟨i, hi1, by omega, hi3⟩
                · have hr2' : event_redaction
                      (hist_client uid now H).user_id ev = false := hr2
                  rcases d? with _ | d
                  · have hch := phase2_chunk_typeone (hist_client uid now H)
                      leid ev hid hr1 hr2' hr3
                    simp only [hfc, hch] at h
                    simp at h
                  · cases hx : event_expired d now ev with
                    | false =>
                      have hx' : event_expired d
                          (hist_client uid now H).now_ms ev = false := hx
                      have hch := phase2_chunk_consistone
                        (hist_client uid now H) d leid ev hid hr1 hr2' hr3 hx'
                      simp only [hfc, hch] at h
                      simp at h
                    | true =>
                      have hx' : event_expired d
                          (hist_client uid now H).now_ms ev = true := hx
                      have hro : (hist_client uid now H).redact ev.event_id =
                          Except.ok () := rfl
                      have hch := phase2_chunk_redactone
                        (hist_client uid now H) d leid ev hid hr1 hr2' hr3
                        hx' hro
                      simp only [hfc, hch, hfs, hfe] at h
                      rcases hloop : phase2_loop (hist_client uid now H)
                          (some d) leid n (some (k+1)) (some k) with ⟨rf, rs⟩
                      simp only [hloop, List.singleton_append] at h
                      injection h with h1 h2
                      obtain ⟨s, hs, hcov, hstop, hTc⟩ := ih k (some (k+1)) rs
                        (by omega) (by rw [hloop, h1])
                      refine ⟨s, by omega, ?_, ?_, ?_⟩
                      · intro i hi1 hi2
                        rcases Nat.lt_or_ge i k with hik | hik
                        · obtain ⟨evi, hgi, hdisj⟩ := hcov i hi1 hik
                          refine ⟨evi, hgi, ?_⟩
                          rcases hdisj with hskl | ⟨hne', hmem'⟩
                          · exact Or.inl hskl
                          · exact Or.inr ⟨hne', by
                              rw [← h2]
                              exact List.mem_cons_of_mem ev hmem'⟩
                        · have hieq : i = k := by omega
                          subst hieq
                          refine ⟨ev, hgk0, Or.inr ⟨hid, ?_⟩⟩
                          rw [← h2]
                          exact List.mem_cons_self ev rs
                      · rcases hstop with h0 | hmid | hcur
                        · exact Or.inl h0
                        · injection hmid with hmid
                          omega
                        · exact Or.inr (Or.inr hcur)
                      · intro e2 he2
                        rw [← h2] at he2
                        rcases List.mem_cons.mp he2 with he | he
                        · subst he
                          exact ⟨k, hs, by omega, hgk0⟩
                        · obtain ⟨i, hi1, hi2, hi3⟩ := hTc e2 he
                          exact ⟨i, hi1, by omega, hi3⟩

/-- C9: Running the backfill pass (Room.delete_previous_events) twice
in succession on an unchanged history is idempotent: over a linear
history with pairwise distinct event identifiers, if the first run
succeeds, then once its redactions have taken effect on the history
(each redacted event now carrying the bot's own redaction, as
event_redacted_by_bot / event_redacted report), a second run with any
fuel issues no new redact calls — every event the first run redacted
is detected as already redacted and skipped. -/
theorem C9_backfill_idempotent (uid : String) (now : Int) (H : List Event)
    (st : RoomState Nat) (fuel1 : Nat) (T : List Event)
    (hnd : (H.map Event.event_id).Nodup)
    (h1 : delete_previous_events (hist_client uid now H) st fuel1 =
      (Except.ok (), T)) :
    ∀ fuel2,
      (delete_previous_events
        (hist_client uid now (mark_ids uid (T.map Event.event_id) H))
        st fuel2).snd = [] := by
  intro fuel2
  rcases fuel1 with _ | n1
  · rw [dpe_eq_err (hist_client uid now H) st 0 Err.fuelOut rfl] at h1
    simp at h1
  · rcases hbte : st.batch_token_end with _ | t0
    · have hp : phase1_loop (hist_client uid now H) (n1+1) none
          st.batch_token_end = Except.ok (none, none) := by
        rw [hbte]
        rfl
      rw [dpe_eq _ st (n1+1) none none hp] at h1
      have hq : phase2_loop (hist_client uid now H) st.delete_after_m
          st.last_event_id (n1+1) none none = (Except.ok (), []) := rfl
      rw [hq] at h1
      injection h1 with h1a h1b
      rw [← h1b]
      simp only [List.map_nil, mark_ids_nil]
      rcases fuel2 with _ | n2
      · rw [dpe_eq_err (hist_client uid now H) st 0 Err.fuelOut rfl]
      · have hp2 : phase1_loop (hist_client uid now H) (n2+1) none
            st.batch_token_end = Except.ok (none, none) := by
          rw [hbte]
          rfl
        rw [dpe_eq _ st (n2+1) none none hp2]
        rfl
    · rcases hist_phase1_spec uid now H (n1+1) none t0 with
        hfo | ⟨⟨x, hp1⟩, hside⟩ | ⟨m, hm1, hm2, hmin, hp1⟩
      · rw [dpe_eq_err _ st (n1+1) Err.fuelOut
          (by rw [hbte]; exact hfo)] at h1
        simp at h1
      · rcases hside with hside | hunm
        · exact Option.noConfusion hside
        · have hT : T = [] := by
            rw [dpe_eq _ st (n1+1) x x (by rw [hbte]; exact hp1)] at h1
            rcases x with _ | y
            · have hq : phase2_loop (hist_client uid now H) st.delete_after_m
                  st.last_event_id (n1+1) none none = (Except.ok (), []) := rfl
              rw [hq] at h1
              injection h1 with h1a h1b
              exact h1b.symm
            · rw [phase2_loop_eq_stop _ _ _ n1 (some y) y rfl] at h1
              injection h1 with h1a h1b
              exact h1b.symm
          rw [hT]
          simp only [List.map_nil, mark_ids_nil]
          rcases fuel2 with _ | n2
          · rw [dpe_eq_err (hist_client uid now H) st 0 Err.fuelOut rfl]
          · rcases hist_phase1_spec uid now H (n2+1) none t0 with
              hfo2 | ⟨⟨x2, hp2⟩, -⟩ | ⟨m2, hm21, hm22, -, -⟩
            · rw [dpe_eq_err _ st (n2+1) _ (by rw [hbte]; exact hfo2)]
            · rw [dpe_eq _ st (n2+1) x2 x2 (by rw [hbte]; exact hp2)]
              rcases x2 with _ | y2
              · rfl
              · rw [phase2_loop_eq_stop _ _ _ n2 (some y2) y2 rfl]
            · rw [hunm m2 hm21] at hm22
              exact Bool.noConfusion hm22
      · have hmlen : m < H.length := markedAt_lt uid H m hm2
        rw [min_eq_left (by omega : m+1 ≤ H.length)] at hp1
        rw [dpe_eq _ st (n1+1) (some m) (some (m+1))
          (by rw [hbte]; exact hp1)] at h1
        obtain ⟨s, hs, hcov, hstop0, hTc⟩ := hist_phase2_cover uid now H
          st.delete_after_m st.last_event_id (n1+1) (m+1) (some m) T
          (by omega) h1
        have hstop2 : s = 0 ∨ ∃ ev, H.get? (s-1) = some ev ∧
            some ev.event_id = st.last_event_id := by
          rcases hstop0 with h0 | hmid | hcur
          · exact Or.inl h0
          · injection hmid with hmid
            omega
          · exact Or.inr hcur
        rcases fuel2 with _ | n2
        · rw [dpe_eq_err _ st 0 Err.fuelOut rfl]
        · rcases hist_phase1_spec uid now
            (mark_ids uid (T.map Event.event_id) H) (n2+1) none t0 with
            hfo2 | ⟨⟨x2, hp2⟩, -⟩ | ⟨m2, hm21, hm22, hmin2, hp2⟩
          · rw [dpe_eq_err _ st (n2+1) _ (by rw [hbte]; exact hfo2)]
          · rw [dpe_eq _ st (n2+1) x2 x2 (by rw [hbte]; exact hp2)]
            rcases x2 with _ | y2
            · rfl
            · rw [phase2_loop_eq_stop _ _ _ n2 (some y2) y2 rfl]
          · have hm2len : m2 <
                (mark_ids uid (T.map Event.event_id) H).length :=
              markedAt_lt _ _ _ hm22
            rw [mark_ids_length] at hm2len
            rw [min_eq_left (by rw [mark_ids_length]; omega :
              m2+1 ≤ (mark_ids uid (T.map Event.event_id) H).length)] at hp2
            rw [dpe_eq _ st (n2+1) (some m2) (some (m2+1))
              (by rw [hbte]; exact hp2)]
            have hkey : s ≤ m2 + 1 ∧ m2 ≤ m := by
              obtain ⟨ev2', hg2, hb2⟩ :=
                (markedAt_iff uid (mark_ids uid (T.map Event.event_id) H)
                  m2).mp hm22
              rw [mark_ids_get?] at hg2
              rcases hgm2 : H.get? m2 with _ | ev
              · rw [hgm2] at hg2
                exact Option.noConfusion hg2
              · rw [hgm2] at hg2
                injection hg2 with hev2eq
                by_cases hin : ev.event_id ∈ T.map Event.event_id
                · obtain ⟨e2, he2T, he2id⟩ := List.mem_map.mp hin
                  obtain ⟨i, hi1, hi2, hi3⟩ := hTc e2 he2T
                  have hpos : m2 = i :=
                    nodup_get?_inj H hnd m2 i ev e2 hgm2 hi3 he2id.symm
                  constructor <;> omega
                · rw [mark_event_noop uid _ ev hin] at hev2eq
                  have hmk : markedAt uid H m2 = true :=
                    (markedAt_iff uid H m2).mpr
                      ⟨ev, hgm2, by rw [hev2eq]; exact hb2⟩
                  have h1le : m ≤ m2 := by
                    by_contra hc
                    push_neg at hc
                    rw [hmin m2 hm21 hc] at hmk
                    exact Bool.noConfusion hmk
                  have hH2m : markedAt uid
                      (mark_ids uid (T.map Event.event_id) H) m = true :=
                    markedAt_mark_ids uid _ H m hm2
                  have h2le : m2 ≤ m := by
                    by_contra hc
                    push_neg at hc
                    rw [hmin2 m hm1 hc] at hH2m
                    exact Bool.noConfusion hH2m
                  constructor <;> omega
            obtain ⟨hsm2, hm2m⟩ := hkey
            have hstop3 : s = 0 ∨ ∃ ev,
                (mark_ids uid (T.map Event.event_id) H).get? (s-1) =
                  some ev ∧ some ev.event_id = st.last_event_id := by
              rcases hstop2 with h0 | ⟨evc, hevc, hidc⟩
              · exact Or.inl h0
              · refine Or.inr ⟨mark_event uid (T.map Event.event_id) evc,
                  ?_, ?_⟩
                · rw [mark_ids_get?, hevc]
                  rfl
                · rw [mark_event_id]
                  exact hidc
            refine hist_phase2_cleared uid now _ st.delete_after_m
              st.last_event_id s hstop3 (n2+1) (m2+1) (some m2) hsm2 ?_
            intro i hi1 hi2
            have hi2' : i < m+1 := by omega
            obtain ⟨evi, hgi, hdisj⟩ := hcov i hi1 hi2'
            refine ⟨mark_event uid (T.map Event.event_id) evi, ?_, ?_⟩
            · rw [mark_ids_get?, hgi]
              rfl
            · rcases hdisj with hskl | ⟨hne, hmem⟩
              · exact mark_event_skip uid _ st.last_event_id evi hskl
              · exact ⟨by rw [mark_event_id]; exact hne,
                  Or.inl (mark_event_redacted uid _ evi
                    (List.mem_map_of_mem Event.event_id hmem))⟩

/-- Concrete check of the idempotence theorem: the run over the
three-event idempotence history succeeds redacting exactly the
qualifying event, the history has distinct event identifiers, and the
re-run over the history with that redaction applied issues no redact
call. -/
theorem C9_backfill_idempotent_witness :
    (histIdem.map Event.event_id).Nodup ∧
    delete_previous_events (hist_client "@bot:example.org" 60000 histIdem)
      stIdem 7 = (Except.ok (), [evOld]) ∧
    (delete_previous_events
      (hist_client "@bot:example.org" 60000
        (mark_ids "@bot:example.org" ([evOld].map Event.event_id) histIdem))
      stIdem 7).snd = [] :=
  ⟨by decide, idem_run1,
    C9_backfill_idempotent "@bot:example.org" 60000 histIdem stIdem 7 [evOld]
      (by decide) idem_run1 7⟩
